import Mathlib

/-!
Verification of the PEC + Policy Cards integration example.

Shallow embedding of the TypeScript sources:
  * `src/src/agent.ts` — PEC metadata parsing, MCP tool discovery,
    policy-card filtering and governed-agent construction;
  * `src/mcp-server/src/index.ts` and `src/mcp-server/src/tools.ts` —
    the MCP server's tools and their embedded compliance metadata.

JavaScript strings are modelled as `List Char`; JSON values (the open
metadata schema) as the `Json` inductive below; JSON numbers as `Int`
(every number appearing in the repository's metadata is integral).
`JSON.stringify` / `JSON.parse` are modelled by an executable printer
and parser over this type.

The policy-cards library (`loadPolicyCard`, `evaluatePolicyCard`,
`PolicyCardAuditor`) is imported by the example from
`@protocol-embedded-compliance/policy-cards` and its code is not part of
this repository; those definitions are modelled from the specification
(see the `Modelled from the spec:` doc comments).
-/

namespace Pec

/-- JSON value tree: the open compliance-metadata schema. Numbers are
modelled as `Int` (see header). -/
inductive Json where
  | null : Json
  | bool (b : Bool) : Json
  | num (n : Int) : Json
  | str (s : List Char) : Json
  | arr (xs : List Json) : Json
  | obj (kvs : List (List Char × Json)) : Json
  deriving Repr

/-! ## JSON printer (model of `JSON.stringify`) -/

/-- Character for a single decimal digit. -/
def digitChar (d : Nat) : Char := Char.ofNat (48 + d)

/-- Decimal digits of a natural number (most significant first), with
explicit fuel so that the definition is structurally recursive. -/
def natToCharsAux : Nat → Nat → List Char
  | 0, _ => []
  | f + 1, n =>
    if n < 10 then [digitChar n]
    else natToCharsAux f (n / 10) ++ [digitChar (n % 10)]

def natToChars (n : Nat) : List Char := natToCharsAux (n + 1) n

/-- Decimal rendering of an integer, as `JSON.stringify` renders it. -/
def intToChars (n : Int) : List Char :=
  if n < 0 then '-' :: natToChars n.natAbs else natToChars n.toNat

/-- Hex digit character (lower case), as emitted in `\u00XX` escapes. -/
def hexDigitChar (d : Nat) : Char :=
  if d < 10 then Char.ofNat (48 + d) else Char.ofNat (87 + d)

/-- The `\u00XX` escape of a control character with code `n`. -/
def uEscape (n : Nat) : List Char :=
  '\\' :: 'u' :: '0' :: '0' :: hexDigitChar (n / 16) :: [hexDigitChar (n % 16)]

/-- Escape of one character inside a JSON string literal, following
`JSON.stringify`: short escapes for the common control characters and
`\u00XX` for the remaining ones. -/
def escChar (c : Char) : List Char :=
  if c = '"' then ['\\', '"']
  else if c = '\\' then ['\\', '\\']
  else if c = Char.ofNat 8 then ['\\', 'b']
  else if c = '\t' then ['\\', 't']
  else if c = '\n' then ['\\', 'n']
  else if c = Char.ofNat 12 then ['\\', 'f']
  else if c = '\r' then ['\\', 'r']
  else if c.toNat < 32 then uEscape c.toNat
  else [c]

def escString : List Char → List Char
  | [] => []
  | c :: s => escChar c ++ escString s

mutual

/-- Model of `JSON.stringify` (no added whitespace). -/
def printJson : Json → List Char
  | .null => "null".data
  | .bool true => "true".data
  | .bool false => "false".data
  | .num n => intToChars n
  | .str s => '"' :: escString s ++ ['"']
  | .arr xs => '[' :: printItems xs ++ [']']
  | .obj kvs => '{' :: printMembers kvs ++ ['}']

/-- Comma-separated array items. -/
def printItems : List Json → List Char
  | [] => []
  | [x] => printJson x
  | x :: y :: xs => printJson x ++ ',' :: printItems (y :: xs)

/-- Comma-separated object members. -/
def printMembers : List (List Char × Json) → List Char
  | [] => []
  | [(k, v)] => '"' :: escString k ++ '"' :: ':' :: printJson v
  | (k, v) :: m :: kvs =>
    ('"' :: escString k ++ '"' :: ':' :: printJson v) ++ ',' :: printMembers (m :: kvs)

end

example : printJson (Json.arr [Json.null, Json.num 12]) = "[null,12]".data := rfl

example : printJson (Json.obj [("a".data, Json.bool true)]) = "\x7b\"a\":true\x7d".data := rfl

/-! ## Boolean equality on `Json`

(`deriving DecidableEq` is unavailable for this nested inductive, so the
structural equality used by the `equals` operator is spelt out.) -/

mutual

def jsonBEq : Json → Json → Bool
  | .null, .null => true
  | .bool a, .bool b => a == b
  | .num a, .num b => a == b
  | .str a, .str b => a == b
  | .arr a, .arr b => jsonListBEq a b
  | .obj a, .obj b => jsonObjBEq a b
  | _, _ => false

def jsonListBEq : List Json → List Json → Bool
  | [], [] => true
  | x :: xs, y :: ys => jsonBEq x y && jsonListBEq xs ys
  | _, _ => false

def jsonObjBEq : List (List Char × Json) → List (List Char × Json) → Bool
  | [], [] => true
  | (k, v) :: xs, (k', v') :: ys => k == k' && jsonBEq v v' && jsonObjBEq xs ys
  | _, _ => false

end

/-! ## JSON parser (model of `JSON.parse`)

Recursive-descent parser over `List Char`, with fuel making the mutual
recursion structural.  Faithful to `JSON.parse` on the fragment the
repository exercises: literals, integer numbers, escaped strings,
arrays, objects and insignificant whitespace; fractional/exponent
number syntax is outside the integral number model (see header). -/

/-- The JSON insignificant-whitespace characters. -/
def isJsonWs (c : Char) : Bool := c = ' ' || c = '\t' || c = '\n' || c = '\r'

def skipWs (cs : List Char) : List Char := cs.dropWhile isJsonWs

/-- Numeric value of a hex digit (either case), as in `\uXXXX` escapes. -/
def hexVal (c : Char) : Option Nat :=
  if '0' ≤ c ∧ c ≤ '9' then some (c.toNat - 48)
  else if 'a' ≤ c ∧ c ≤ 'f' then some (c.toNat - 87)
  else if 'A' ≤ c ∧ c ≤ 'F' then some (c.toNat - 55)
  else none

/-- Decoding of a short escape `\c` inside a string literal. -/
def unescChar (c : Char) : Option Char :=
  if c = '"' then some '"'
  else if c = '\\' then some '\\'
  else if c = '/' then some '/'
  else if c = 'b' then some (Char.ofNat 8)
  else if c = 'f' then some (Char.ofNat 12)
  else if c = 'n' then some '\n'
  else if c = 'r' then some '\r'
  else if c = 't' then some '\t'
  else none

/-- A code point denotable by a Lean `Char` (no surrogates). -/
def validScalar (n : Nat) : Bool := n < 0xd800 || (0xe000 ≤ n && n < 0x110000)

/-- Parses the body of a string literal after the opening quote, up to
and including the closing quote; rejects raw control characters and
unknown escapes, as `JSON.parse` does. -/
def parseStrBody : List Char → Option (List Char × List Char)
  | [] => none
  | c :: rest =>
    if c = '"' then some ([], rest)
    else if c = '\\' then
      match rest with
      | [] => none
      | e :: rest2 =>
        if e = 'u' then
          match rest2 with
          | h1 :: h2 :: h3 :: h4 :: rest3 =>
            match hexVal h1, hexVal h2, hexVal h3, hexVal h4 with
            | some a, some b, some c', some d =>
              let n := 4096 * a + 256 * b + 16 * c' + d
              if validScalar n then
                (parseStrBody rest3).map (fun pr => (Char.ofNat n :: pr.1, pr.2))
              else none
            | _, _, _, _ => none
          | _ => none
        else
          match unescChar e with
          | some ec => (parseStrBody rest2).map (fun pr => (ec :: pr.1, pr.2))
          | none => none
    else if c.toNat < 32 then none
    else (parseStrBody rest).map (fun pr => (c :: pr.1, pr.2))

def digitsToNat (l : List Char) : Nat :=
  l.foldl (fun a c => 10 * a + (c.toNat - 48)) 0

/-- Parses a nonempty run of decimal digits. -/
def parseNatNum (cs : List Char) : Option (Nat × List Char) :=
  let ds := cs.takeWhile Char.isDigit
  if ds = [] then none else some (digitsToNat ds, cs.drop ds.length)

/-- Parses a JSON number (integral model). -/
def parseNum (cs : List Char) : Option (Json × List Char) :=
  if cs.head? = some '-' then
    (parseNatNum cs.tail).map (fun pr => (Json.num (-(pr.1 : Int)), pr.2))
  else
    (parseNatNum cs).map (fun pr => (Json.num (pr.1 : Int), pr.2))

mutual

/-- Parses one JSON value (leading whitespace already skipped). -/
def parseVal : Nat → List Char → Option (Json × List Char)
  | 0, _ => none
  | _ + 1, [] => none
  | f + 1, c :: rest =>
    if c = 'n' then
      match rest with
      | 'u' :: 'l' :: 'l' :: r => some (Json.null, r)
      | _ => none
    else if c = 't' then
      match rest with
      | 'r' :: 'u' :: 'e' :: r => some (Json.bool true, r)
      | _ => none
    else if c = 'f' then
      match rest with
      | 'a' :: 'l' :: 's' :: 'e' :: r => some (Json.bool false, r)
      | _ => none
    else if c = '"' then
      (parseStrBody rest).map (fun pr => (Json.str pr.1, pr.2))
    else if c = '{' then
      let t := skipWs rest
      if t.head? = some '}' then some (Json.obj [], t.tail)
      else (parseMembers f t).map (fun pr => (Json.obj pr.1, pr.2))
    else if c = '[' then
      let t := skipWs rest
      if t.head? = some ']' then some (Json.arr [], t.tail)
      else (parseItems f t).map (fun pr => (Json.arr pr.1, pr.2))
    else if c = '-' || c.isDigit then parseNum (c :: rest)
    else none

/-- Parses a nonempty comma-separated member list and the closing `}`. -/
def parseMembers : Nat → List Char → Option (List (List Char × Json) × List Char)
  | 0, _ => none
  | _ + 1, [] => none
  | f + 1, c :: rest =>
    if c = '"' then
      match parseStrBody rest with
      | none => none
      | some (k, r1) =>
        match skipWs r1 with
        | ':' :: r2 =>
          match parseVal f (skipWs r2) with
          | none => none
          | some (v, r3) =>
            match skipWs r3 with
            | ',' :: r4 => (parseMembers f (skipWs r4)).map (fun pr => ((k, v) :: pr.1, pr.2))
            | '}' :: r4 => some ([(k, v)], r4)
            | _ => none
        | _ => none
    else none

/-- Parses a nonempty comma-separated item list and the closing `]`. -/
def parseItems : Nat → List Char → Option (List Json × List Char)
  | 0, _ => none
  | f + 1, cs =>
    match parseVal f cs with
    | none => none
    | some (v, r) =>
      match skipWs r with
      | ',' :: r2 => (parseItems f (skipWs r2)).map (fun pr => (v :: pr.1, pr.2))
      | ']' :: r2 => some ([v], r2)
      | _ => none

end

/-- Model of `JSON.parse`: parse one value, demand full consumption,
return `none` on any malformed input (where `JSON.parse` throws). -/
def jsonParse (cs : List Char) : Option Json :=
  match parseVal (cs.length + 1) (skipWs cs) with
  | some (j, rest) => if skipWs rest = [] then some j else none
  | none => none

example : jsonParse "\x7b\"a\":[1,-2,null], \"b\":\"x\\n\"\x7d".data
    = some (Json.obj [("a".data, Json.arr [Json.num 1, Json.num (-2), Json.null]),
                      ("b".data, Json.str ['x', '\n'])]) := rfl

example : jsonParse "\x7bnot json\x7d".data = none := rfl

/-! ## Printer/parser round trip -/

theorem digitChar_isDigit {d : Nat} (h : d < 10) : (digitChar d).isDigit = true := by
  have : ∀ e, e < 10 → (digitChar e).isDigit = true := by decide
  exact this d h

theorem digitChar_toNat {d : Nat} (h : d < 10) : (digitChar d).toNat = 48 + d := by
  have : ∀ e, e < 10 → (digitChar e).toNat = 48 + e := by decide
  exact this d h

theorem isDigit_ne {c : Char} (h : c.isDigit = true) :
    c ≠ 'n' ∧ c ≠ 't' ∧ c ≠ 'f' ∧ c ≠ '"' ∧ c ≠ '{' ∧ c ≠ '[' ∧ c ≠ '-' ∧
      isJsonWs c = false ∧ c ≠ ']' ∧ c ≠ '}' ∧ c ≠ ',' := by
  have hne : ∀ x : Char, x.isDigit = false → c ≠ x := by
    intro x hx heq
    rw [heq, hx] at h
    exact Bool.false_ne_true h
  refine ⟨hne 'n' (by decide), hne 't' (by decide), hne 'f' (by decide),
    hne '"' (by decide), hne '{' (by decide), hne '[' (by decide),
    hne '-' (by decide), ?_, hne ']' (by decide), hne '}' (by decide),
    hne ',' (by decide)⟩
  simp only [isJsonWs, Bool.or_eq_false_iff, decide_eq_false_iff_not]
  exact ⟨⟨⟨hne ' ' (by decide), hne '\t' (by decide)⟩, hne '\n' (by decide)⟩,
    hne '\r' (by decide)⟩

theorem takeWhile_append_all {p : Char → Bool} {l r : List Char}
    (hl : ∀ c ∈ l, p c = true) (hr : ∀ c, r.head? = some c → p c = false) :
    (l ++ r).takeWhile p = l := by
  induction l with
  | nil =>
    simp only [List.nil_append]
    cases r with
    | nil => simp
    | cons c r' => simp [List.takeWhile_cons, hr c rfl]
  | cons c l' ih =>
    simp only [List.cons_append, List.takeWhile_cons, hl c (List.mem_cons_self c l')]
    rw [ih (fun d hd => hl d (List.mem_cons_of_mem c hd))]
    simp

theorem natToCharsAux_spec :
    ∀ f n, n < f →
      natToCharsAux f n ≠ [] ∧ (∀ c ∈ natToCharsAux f n, c.isDigit = true) ∧
        digitsToNat (natToCharsAux f n) = n := by
  intro f
  induction f with
  | zero => intro n hn; omega
  | succ f ih =>
    intro n hn
    by_cases h10 : n < 10
    · refine ⟨by simp [natToCharsAux, h10], ?_, ?_⟩
      · intro c hc
        simp only [natToCharsAux, if_pos h10, List.mem_singleton] at hc
        exact hc ▸ digitChar_isDigit h10
      · simp [natToCharsAux, if_pos h10, digitsToNat, digitChar_toNat h10]
    · have hdiv : n / 10 < f := by
        have h1 : n / 10 < n := Nat.div_lt_self (by omega) (by omega)
        omega
      obtain ⟨hne, hdig, hval⟩ := ih (n / 10) hdiv
      simp only [natToCharsAux, if_neg h10]
      refine ⟨by simp, ?_, ?_⟩
      · intro c hc
        rcases List.mem_append.mp hc with h | h
        · exact hdig c h
        · rw [List.mem_singleton.mp h]
          exact digitChar_isDigit (Nat.mod_lt n (by omega))
      · have hm : n % 10 < 10 := Nat.mod_lt n (by omega)
        simp only [digitsToNat, List.foldl_append] at *
        simp [hval, List.foldl_cons, digitChar_toNat hm]
        omega

theorem natToChars_spec (n : Nat) :
    natToChars n ≠ [] ∧ (∀ c ∈ natToChars n, c.isDigit = true) ∧
      digitsToNat (natToChars n) = n :=
  natToCharsAux_spec (n + 1) n (Nat.lt_succ_self n)

/-- `rest` does not start with a decimal digit (so that a printed number
followed by `rest` re-parses to exactly the number). -/
def noDigitHead (rest : List Char) : Prop :=
  ∀ c, rest.head? = some c → c.isDigit = false

theorem parseNatNum_print (n : Nat) (rest : List Char) (hrest : noDigitHead rest) :
    parseNatNum (natToChars n ++ rest) = some (n, rest) := by
  obtain ⟨hne, hdig, hval⟩ := natToChars_spec n
  have htw : (natToChars n ++ rest).takeWhile Char.isDigit = natToChars n :=
    takeWhile_append_all hdig hrest
  simp only [parseNatNum, htw, if_neg hne, hval, List.drop_left]

theorem parseNum_print (n : Int) (rest : List Char) (hrest : noDigitHead rest) :
    parseNum (intToChars n ++ rest) = some (Json.num n, rest) := by
  by_cases hneg : n < 0
  · have habs : -((n.natAbs : Int)) = n := by omega
    simp only [intToChars, if_pos hneg, List.cons_append, parseNum, List.head?_cons,
      List.tail_cons]
    rw [if_true, parseNatNum_print n.natAbs rest hrest, Option.map_some', habs]
  · have htn : ((n.toNat : Int)) = n := by omega
    simp only [intToChars, if_neg hneg]
    obtain ⟨hne, hdig, _⟩ := natToChars_spec n.toNat
    obtain ⟨c, tl, hct⟩ := List.exists_cons_of_ne_nil hne
    have hcd : c.isDigit = true := hdig c (by rw [hct]; exact List.mem_cons_self c tl)
    have hcm : c ≠ '-' := (isDigit_ne hcd).2.2.2.2.2.2.1
    rw [hct]
    simp only [List.cons_append, parseNum, List.head?_cons]
    rw [if_neg (by simpa using hcm)]
    rw [← List.cons_append, ← hct, parseNatNum_print n.toNat rest hrest,
      Option.map_some', htn]

theorem hexVal_hexDigitChar {d : Nat} (h : d < 16) : hexVal (hexDigitChar d) = some d := by
  have : ∀ e, e < 16 → hexVal (hexDigitChar e) = some e := by decide
  exact this d h

theorem parseStrBody_esc (s : List Char) (rest : List Char) :
    parseStrBody (escString s ++ '"' :: rest) = some (s, rest) := by
  induction s with
  | nil =>
    show parseStrBody ('"' :: rest) = some ([], rest)
    rw [parseStrBody.eq_def]
    simp
  | cons c s ih =>
    show parseStrBody (escChar c ++ escString s ++ '"' :: rest) = some (c :: s, rest)
    by_cases h1 : c = '"'
    · subst h1
      show parseStrBody ('\\' :: '"' :: (escString s ++ '"' :: rest)) = _
      rw [parseStrBody.eq_def]
      simp [unescChar, ih]
    by_cases h2 : c = '\\'
    · subst h2
      show parseStrBody ('\\' :: '\\' :: (escString s ++ '"' :: rest)) = _
      rw [parseStrBody.eq_def]
      simp [unescChar, ih]
    by_cases h3 : c = Char.ofNat 8
    · subst h3
      show parseStrBody ('\\' :: 'b' :: (escString s ++ '"' :: rest)) = _
      rw [parseStrBody.eq_def]
      simp [unescChar, ih]
    by_cases h4 : c = '\t'
    · subst h4
      show parseStrBody ('\\' :: 't' :: (escString s ++ '"' :: rest)) = _
      rw [parseStrBody.eq_def]
      simp [unescChar, ih]
    by_cases h5 : c = '\n'
    · subst h5
      show parseStrBody ('\\' :: 'n' :: (escString s ++ '"' :: rest)) = _
      rw [parseStrBody.eq_def]
      simp [unescChar, ih]
    by_cases h6 : c = Char.ofNat 12
    · subst h6
      show parseStrBody ('\\' :: 'f' :: (escString s ++ '"' :: rest)) = _
      rw [parseStrBody.eq_def]
      simp [unescChar, ih]
    by_cases h7 : c = '\r'
    · subst h7
      show parseStrBody ('\\' :: 'r' :: (escString s ++ '"' :: rest)) = _
      rw [parseStrBody.eq_def]
      simp [unescChar, ih]
    by_cases h8 : c.toNat < 32
    · have hdiv : c.toNat / 16 < 16 := by omega
      have hmod : c.toNat % 16 < 16 := by omega
      have hv : validScalar c.toNat = true := by
        simp only [validScalar, Bool.or_eq_true, decide_eq_true_eq, Bool.and_eq_true]
        omega
      have hc : 4096 * 0 + 256 * 0 + 16 * (c.toNat / 16) + c.toNat % 16 = c.toNat := by
        omega
      simp only [escChar, uEscape, if_neg h1, if_neg h2, if_neg h3, if_neg h4, if_neg h5,
        if_neg h6, if_neg h7, if_pos h8, List.cons_append, List.nil_append]
      rw [parseStrBody.eq_def]
      simp only [if_neg (by decide : ¬('\\' : Char) = '"'),
        if_pos (rfl : ('\\' : Char) = '\\'), if_pos (rfl : ('u' : Char) = 'u'),
        hexVal_hexDigitChar hdiv, hexVal_hexDigitChar hmod,
        (by decide : hexVal '0' = some 0), hc, hv, if_true, Char.ofNat_toNat, ih,
        Option.map_some']
    · simp only [escChar, if_neg h1, if_neg h2, if_neg h3, if_neg h4, if_neg h5,
        if_neg h6, if_neg h7, if_neg h8, List.cons_append, List.nil_append]
      rw [parseStrBody.eq_def]
      simp only [if_neg h1, if_neg h2, ih, Option.map_some', if_neg h8]

theorem skipWs_cons {c : Char} {l : List Char} (h : isJsonWs c = false) :
    skipWs (c :: l) = c :: l := by
  simp [skipWs, List.dropWhile_cons, h]

theorem intToChars_head (n : Int) :
    ∃ c tl, intToChars n = c :: tl ∧ (c = '-' ∨ c.isDigit = true) := by
  by_cases hneg : n < 0
  · exact ⟨'-', natToChars n.natAbs, by simp [intToChars, if_pos hneg], Or.inl rfl⟩
  · obtain ⟨hne, hdig, _⟩ := natToChars_spec n.toNat
    obtain ⟨c, tl, hct⟩ := List.exists_cons_of_ne_nil hne
    refine ⟨c, tl, by simp [intToChars, if_neg hneg, hct], Or.inr ?_⟩
    exact hdig c (by rw [hct]; exact List.mem_cons_self c tl)

/-- A character that can open a printed JSON value: not whitespace and
not a closing bracket. -/
def goodHead (c : Char) : Prop := isJsonWs c = false ∧ c ≠ ']' ∧ c ≠ '}'

theorem goodHead_of_lit {c : Char} (h : c ∈ ['n', 't', 'f', '"', '[', '{', '-']) :
    goodHead c := by
  have hall : ∀ x ∈ ['n', 't', 'f', '"', '[', '{', '-'],
      isJsonWs x = false ∧ x ≠ ']' ∧ x ≠ '}' := by decide
  exact hall c h

theorem printJson_head (j : Json) :
    ∃ c tl, printJson j = c :: tl ∧ isJsonWs c = false ∧ c ≠ ']' ∧ c ≠ '}' := by
  cases j with
  | num n =>
    obtain ⟨c, tl, heq, hc⟩ := intToChars_head n
    refine ⟨c, tl, heq, ?_⟩
    rcases hc with hc | hc
    · exact hc ▸ goodHead_of_lit (by decide)
    · obtain ⟨_, _, _, _, _, _, _, hws, hrb, hcb, _⟩ := isDigit_ne hc
      exact ⟨hws, hrb, hcb⟩
  | bool b =>
    cases b with
    | true => exact ⟨_, _, rfl, goodHead_of_lit (by decide)⟩
    | false => exact ⟨_, _, rfl, goodHead_of_lit (by decide)⟩
  | null => exact ⟨_, _, rfl, goodHead_of_lit (by decide)⟩
  | str s => exact ⟨_, _, rfl, goodHead_of_lit (by decide)⟩
  | arr xs => exact ⟨_, _, rfl, goodHead_of_lit (by decide)⟩
  | obj kvs => exact ⟨_, _, rfl, goodHead_of_lit (by decide)⟩

theorem printMembers_head (k : List Char) (v : Json) (kvs : List (List Char × Json)) :
    ∃ tl, printMembers ((k, v) :: kvs) = '"' :: tl := by
  cases kvs with
  | nil => exact ⟨_, rfl⟩
  | cons m ms => exact ⟨_, rfl⟩

/-! Size measure bounding the parser fuel a printed value needs. -/

mutual

def jsonSize : Json → Nat
  | .arr xs => 1 + jsonSizeItems xs
  | .obj kvs => 1 + jsonSizeMembers kvs
  | _ => 1

def jsonSizeItems : List Json → Nat
  | [] => 0
  | x :: xs => 1 + jsonSize x + jsonSizeItems xs

def jsonSizeMembers : List (List Char × Json) → Nat
  | [] => 0
  | (_, v) :: kvs => 1 + jsonSize v + jsonSizeMembers kvs

end

theorem jsonSize_pos (j : Json) : 1 ≤ jsonSize j := by
  cases j <;> simp [jsonSize]

/-! Dispatch lemmas exposing the branch `parseVal` takes for each
possible head character. -/

theorem parseVal_null (f : Nat) (r : List Char) :
    parseVal (f + 1) ('n' :: 'u' :: 'l' :: 'l' :: r) = some (Json.null, r) := by
  rw [parseVal.eq_def]
  simp

theorem parseVal_true (f : Nat) (r : List Char) :
    parseVal (f + 1) ('t' :: 'r' :: 'u' :: 'e' :: r) = some (Json.bool true, r) := by
  rw [parseVal.eq_def]
  simp

theorem parseVal_false (f : Nat) (r : List Char) :
    parseVal (f + 1) ('f' :: 'a' :: 'l' :: 's' :: 'e' :: r) = some (Json.bool false, r) := by
  rw [parseVal.eq_def]
  simp

theorem parseVal_quote (f : Nat) (r : List Char) :
    parseVal (f + 1) ('"' :: r)
      = (parseStrBody r).map (fun pr => (Json.str pr.1, pr.2)) := by
  rw [parseVal.eq_def]
  simp

theorem parseVal_lbrace (f : Nat) (r : List Char) :
    parseVal (f + 1) ('{' :: r)
      = (if (skipWs r).head? = some '}' then some (Json.obj [], (skipWs r).tail)
         else (parseMembers f (skipWs r)).map (fun pr => (Json.obj pr.1, pr.2))) := by
  rw [parseVal.eq_def]
  simp

theorem parseVal_lbrack (f : Nat) (r : List Char) :
    parseVal (f + 1) ('[' :: r)
      = (if (skipWs r).head? = some ']' then some (Json.arr [], (skipWs r).tail)
         else (parseItems f (skipWs r)).map (fun pr => (Json.arr pr.1, pr.2))) := by
  rw [parseVal.eq_def]
  simp

theorem parseVal_digit (f : Nat) (c : Char) (cs : List Char)
    (h : c = '-' ∨ c.isDigit = true) :
    parseVal (f + 1) (c :: cs) = parseNum (c :: cs) := by
  rcases h with h | h
  · subst h
    rw [parseVal.eq_def]
    simp
  · obtain ⟨hn, ht, hf, hq, hb, hk, _, _, _, _, _⟩ := isDigit_ne h
    rw [parseVal.eq_def]
    simp [hn, ht, hf, hq, hb, hk, h]

theorem noDigitHead_cons {c : Char} {l : List Char} (h : c.isDigit = false) :
    noDigitHead (c :: l) := by
  intro d hd
  simp only [List.head?_cons, Option.some_inj] at hd
  exact hd ▸ h

theorem printItems_head (x : Json) (xs : List Json) :
    ∃ c tl, printItems (x :: xs) = c :: tl ∧ isJsonWs c = false ∧ c ≠ ']' ∧ c ≠ '}' := by
  obtain ⟨c, tl, hpx, h⟩ := printJson_head x
  cases xs with
  | nil => exact ⟨c, tl, by simp [printItems, hpx], h⟩
  | cons y ys =>
    exact ⟨c, tl ++ ',' :: printItems (y :: ys), by simp [printItems, hpx], h⟩

theorem skipWs_printJson_append (j : Json) (r : List Char) :
    skipWs (printJson j ++ r) = printJson j ++ r := by
  obtain ⟨c, tl, heq, hws, _, _⟩ := printJson_head j
  rw [heq, List.cons_append, skipWs_cons hws]

theorem skipWs_printItems_append (x : Json) (xs : List Json) (r : List Char) :
    skipWs (printItems (x :: xs) ++ r) = printItems (x :: xs) ++ r := by
  obtain ⟨c, tl, heq, hws, _, _⟩ := printItems_head x xs
  rw [heq, List.cons_append, skipWs_cons hws]

theorem skipWs_printMembers_append (k : List Char) (v : Json)
    (kvs : List (List Char × Json)) (r : List Char) :
    skipWs (printMembers ((k, v) :: kvs) ++ r) = printMembers ((k, v) :: kvs) ++ r := by
  obtain ⟨tl, heq⟩ := printMembers_head k v kvs
  rw [heq, List.cons_append, skipWs_cons (by decide)]

theorem parseItems_succ (f : Nat) (cs : List Char) :
    parseItems (f + 1) cs
      = (match parseVal f cs with
        | none => none
        | some (v, r) =>
          match skipWs r with
          | ',' :: r2 => (parseItems f (skipWs r2)).map (fun pr => (v :: pr.1, pr.2))
          | ']' :: r2 => some ([v], r2)
          | _ => none) := by
  rw [parseItems.eq_def]

theorem parseMembers_quote (f : Nat) (r : List Char) :
    parseMembers (f + 1) ('"' :: r)
      = (match parseStrBody r with
        | none => none
        | some (k, r1) =>
          match skipWs r1 with
          | ':' :: r2 =>
            match parseVal f (skipWs r2) with
            | none => none
            | some (v, r3) =>
              match skipWs r3 with
              | ',' :: r4 =>
                (parseMembers f (skipWs r4)).map (fun pr => ((k, v) :: pr.1, pr.2))
              | '}' :: r4 => some ([(k, v)], r4)
              | _ => none
          | _ => none) := by
  rw [parseMembers.eq_def]
  simp

/-- Printing then parsing recovers the value: the main printer/parser
round-trip invariant, by induction on the parsing fuel. -/
theorem parse_print_all (f : Nat) :
    (∀ j rest, jsonSize j ≤ f → noDigitHead rest →
      parseVal f (printJson j ++ rest) = some (j, rest)) ∧
    (∀ xs rest, xs ≠ [] → jsonSizeItems xs ≤ f →
      parseItems f (printItems xs ++ ']' :: rest) = some (xs, rest)) ∧
    (∀ kvs rest, kvs ≠ [] → jsonSizeMembers kvs ≤ f →
      parseMembers f (printMembers kvs ++ '}' :: rest) = some (kvs, rest)) := by
  induction f with
  | zero =>
    refine ⟨fun j rest hsz _ => absurd hsz (by have := jsonSize_pos j; omega),
      fun xs rest hne hsz => ?_, fun kvs rest hne hsz => ?_⟩
    · cases xs with
      | nil => exact absurd rfl hne
      | cons x xs =>
        have h1 : jsonSizeItems (x :: xs) = 1 + jsonSize x + jsonSizeItems xs := rfl
        omega
    · cases kvs with
      | nil => exact absurd rfl hne
      | cons kv kvs =>
        obtain ⟨k, v⟩ := kv
        have h1 : jsonSizeMembers ((k, v) :: kvs) = 1 + jsonSize v + jsonSizeMembers kvs :=
          rfl
        omega
  | succ f ih =>
    obtain ⟨ihV, ihI, ihM⟩ := ih
    refine ⟨?_, ?_, ?_⟩
    · intro j rest hsz hgood
      cases j with
      | null => exact parseVal_null f rest
      | bool b =>
        cases b with
        | true => exact parseVal_true f rest
        | false => exact parseVal_false f rest
      | num n =>
        obtain ⟨c, tl, heq, hc⟩ := intToChars_head n
        have h1 : intToChars n ++ rest = c :: (tl ++ rest) := by rw [heq]; rfl
        show parseVal (f + 1) (intToChars n ++ rest) = some (Json.num n, rest)
        rw [h1, parseVal_digit f c _ hc, ← h1]
        exact parseNum_print n rest hgood
      | str s =>
        have h1 : printJson (Json.str s) ++ rest = '"' :: (escString s ++ '"' :: rest) := by
          show ('"' :: escString s ++ ['"']) ++ rest = _
          simp
        rw [h1, parseVal_quote, parseStrBody_esc]
        rfl
      | arr xs =>
        cases xs with
        | nil =>
          have h1 : printJson (Json.arr []) ++ rest = '[' :: (']' :: rest) := rfl
          rw [h1, parseVal_lbrack, skipWs_cons (by decide)]
          simp
        | cons x xs' =>
          have h1 : printJson (Json.arr (x :: xs')) ++ rest
              = '[' :: (printItems (x :: xs') ++ ']' :: rest) := by
            show ('[' :: printItems (x :: xs') ++ [']']) ++ rest = _
            simp
          have hsz' : jsonSizeItems (x :: xs') ≤ f := by
            have h2 : jsonSize (Json.arr (x :: xs')) = 1 + jsonSizeItems (x :: xs') := rfl
            omega
          obtain ⟨c, tl, hpi, hws, hrb, _⟩ := printItems_head x xs'
          rw [h1, parseVal_lbrack, skipWs_printItems_append]
          rw [if_neg (by
            rw [hpi, List.cons_append]
            simp only [List.head?_cons, Option.some_inj]
            exact hrb)]
          rw [ihI (x :: xs') rest (by simp) hsz']
          rfl
      | obj kvs =>
        cases kvs with
        | nil =>
          have h1 : printJson (Json.obj []) ++ rest = '{' :: ('}' :: rest) := rfl
          rw [h1, parseVal_lbrace, skipWs_cons (by decide)]
          simp
        | cons kv kvs' =>
          obtain ⟨k, v⟩ := kv
          have h1 : printJson (Json.obj ((k, v) :: kvs')) ++ rest
              = '{' :: (printMembers ((k, v) :: kvs') ++ '}' :: rest) := by
            show ('{' :: printMembers ((k, v) :: kvs') ++ ['}']) ++ rest = _
            simp
          have hsz' : jsonSizeMembers ((k, v) :: kvs') ≤ f := by
            have h2 : jsonSize (Json.obj ((k, v) :: kvs'))
                = 1 + jsonSizeMembers ((k, v) :: kvs') := rfl
            omega
          obtain ⟨tl, hpm⟩ := printMembers_head k v kvs'
          rw [h1, parseVal_lbrace, skipWs_printMembers_append]
          rw [if_neg (by
            rw [hpm, List.cons_append]
            simp only [List.head?_cons, Option.some_inj]
            decide)]
          rw [ihM ((k, v) :: kvs') rest (by simp) hsz']
          rfl
    · intro xs rest hne hsz
      cases xs with
      | nil => exact absurd rfl hne
      | cons x xs' =>
        have hszx : jsonSize x ≤ f := by
          have h2 : jsonSizeItems (x :: xs') = 1 + jsonSize x + jsonSizeItems xs' := rfl
          omega
        cases xs' with
        | nil =>
          have h1 : printItems [x] ++ ']' :: rest = printJson x ++ ']' :: rest := rfl
          rw [h1, parseItems_succ, ihV x (']' :: rest) hszx (noDigitHead_cons (by decide))]
          simp [skipWs_cons (by decide : isJsonWs ']' = false)]
        | cons y ys =>
          have h1 : printItems (x :: y :: ys) ++ ']' :: rest
              = printJson x ++ (',' :: (printItems (y :: ys) ++ ']' :: rest)) := by
            show (printJson x ++ ',' :: printItems (y :: ys)) ++ ']' :: rest = _
            simp
          have hsz' : jsonSizeItems (y :: ys) ≤ f := by
            have h2 : jsonSizeItems (x :: y :: ys)
                = 1 + jsonSize x + jsonSizeItems (y :: ys) := rfl
            omega
          rw [h1, parseItems_succ,
            ihV x (',' :: (printItems (y :: ys) ++ ']' :: rest)) hszx
              (noDigitHead_cons (by decide))]
          simp only [skipWs_cons (by decide : isJsonWs ',' = false),
            skipWs_printItems_append, ihI (y :: ys) rest (by simp) hsz',
            Option.map_some']
    · intro kvs rest hne hsz
      cases kvs with
      | nil => exact absurd rfl hne
      | cons kv kvs' =>
        obtain ⟨k, v⟩ := kv
        have hszv : jsonSize v ≤ f := by
          have h2 : jsonSizeMembers ((k, v) :: kvs')
              = 1 + jsonSize v + jsonSizeMembers kvs' := rfl
          omega
        cases kvs' with
        | nil =>
          have h1 : printMembers [(k, v)] ++ '}' :: rest
              = '"' :: (escString k ++ '"' :: (':' :: (printJson v ++ '}' :: rest))) := by
            show ('"' :: escString k ++ '"' :: ':' :: printJson v) ++ '}' :: rest = _
            simp
          rw [h1, parseMembers_quote, parseStrBody_esc]
          simp only [skipWs_cons (by decide : isJsonWs ':' = false),
            skipWs_printJson_append,
            ihV v ('}' :: rest) hszv (noDigitHead_cons (by decide)),
            skipWs_cons (by decide : isJsonWs '}' = false)]
        | cons kv2 ms =>
          obtain ⟨k2, v2⟩ := kv2
          have h1 : printMembers ((k, v) :: (k2, v2) :: ms) ++ '}' :: rest
              = '"' :: (escString k ++ '"' :: (':' :: (printJson v
                  ++ (',' :: (printMembers ((k2, v2) :: ms) ++ '}' :: rest))))) := by
            show (('"' :: escString k ++ '"' :: ':' :: printJson v)
                ++ ',' :: printMembers ((k2, v2) :: ms)) ++ '}' :: rest = _
            simp
          have hsz' : jsonSizeMembers ((k2, v2) :: ms) ≤ f := by
            have h2 : jsonSizeMembers ((k, v) :: (k2, v2) :: ms)
                = 1 + jsonSize v + jsonSizeMembers ((k2, v2) :: ms) := rfl
            omega
          rw [h1, parseMembers_quote, parseStrBody_esc]
          simp only [skipWs_cons (by decide : isJsonWs ':' = false),
            skipWs_printJson_append,
            ihV v (',' :: (printMembers ((k2, v2) :: ms) ++ '}' :: rest)) hszv
              (noDigitHead_cons (by decide)),
            skipWs_cons (by decide : isJsonWs ',' = false),
            skipWs_printMembers_append,
            ihM ((k2, v2) :: ms) rest (by simp) hsz', Option.map_some']

mutual

theorem jsonSize_le_print : (j : Json) → jsonSize j ≤ (printJson j).length
  | .null => by simp [jsonSize, printJson]
  | .bool b => by cases b <;> simp [jsonSize, printJson]
  | .num n => by
    obtain ⟨c, tl, heq, _⟩ := intToChars_head n
    show jsonSize (Json.num n) ≤ (intToChars n).length
    rw [heq]
    simp [jsonSize]
  | .str s => by simp [jsonSize, printJson]
  | .arr xs => by
    have h := jsonSizeItems_le_print xs
    show 1 + jsonSizeItems xs ≤ ('[' :: printItems xs ++ [']']).length
    simp only [List.cons_append, List.length_cons, List.length_append,
      List.length_singleton]
    omega
  | .obj kvs => by
    have h := jsonSizeMembers_le_print kvs
    show 1 + jsonSizeMembers kvs ≤ ('{' :: printMembers kvs ++ ['}']).length
    simp only [List.cons_append, List.length_cons, List.length_append,
      List.length_singleton]
    omega

theorem jsonSizeItems_le_print : (xs : List Json) → jsonSizeItems xs ≤ 1 + (printItems xs).length
  | [] => by simp [jsonSizeItems]
  | [x] => by
    have h := jsonSize_le_print x
    show 1 + jsonSize x + jsonSizeItems [] ≤ 1 + (printJson x).length
    simp only [jsonSizeItems]
    omega
  | x :: y :: ys => by
    have h1 := jsonSize_le_print x
    have h2 := jsonSizeItems_le_print (y :: ys)
    show 1 + jsonSize x + jsonSizeItems (y :: ys)
        ≤ 1 + (printJson x ++ ',' :: printItems (y :: ys)).length
    simp only [List.length_append, List.length_cons]
    omega

theorem jsonSizeMembers_le_print :
    (kvs : List (List Char × Json)) → jsonSizeMembers kvs ≤ 1 + (printMembers kvs).length
  | [] => by simp [jsonSizeMembers]
  | [(k, v)] => by
    have h := jsonSize_le_print v
    show 1 + jsonSize v + jsonSizeMembers []
        ≤ 1 + ('"' :: escString k ++ '"' :: ':' :: printJson v).length
    simp only [jsonSizeMembers, List.length_cons, List.cons_append, List.length_append]
    omega
  | (k, v) :: m :: ms => by
    have h1 := jsonSize_le_print v
    have h2 := jsonSizeMembers_le_print (m :: ms)
    show 1 + jsonSize v + jsonSizeMembers (m :: ms)
        ≤ 1 + (('"' :: escString k ++ '"' :: ':' :: printJson v)
            ++ ',' :: printMembers (m :: ms)).length
    simp only [List.length_cons, List.cons_append, List.length_append]
    omega

end

/-- Top-level printer/parser round trip: the model of `JSON.parse`
inverts the model of `JSON.stringify`. -/
theorem jsonParse_print (j : Json) : jsonParse (printJson j) = some j := by
  obtain ⟨c, tl, heq, hws, _, _⟩ := printJson_head j
  have hskip : skipWs (printJson j) = printJson j := by rw [heq]; exact skipWs_cons hws
  have hfuel : jsonSize j ≤ (printJson j).length + 1 :=
    le_trans (jsonSize_le_print j) (Nat.le_succ _)
  have h := (parse_print_all ((printJson j).length + 1)).1 j [] hfuel
    (by intro d hd; simp at hd)
  rw [List.append_nil] at h
  unfold jsonParse
  rw [hskip, h]
  simp [skipWs]

/-! ## The `[PEC_COMPLIANCE:...]` metadata blob
(`src/src/agent.ts`, `src/mcp-server/src/index.ts`)

The regex `\[PEC_COMPLIANCE:(\{[\s\S]*\})\]$` is modelled exactly: a
candidate match at a position requires the literal marker, a capture
running from the following `\x7b` to the character before the final `]`,
that final `]` at the end of the string, and the capture ending in
`\x7d`; `String.match` takes the leftmost position where this succeeds. -/

def markerL : List Char := "[PEC_COMPLIANCE:".data

/-- The marker followed by an opening brace: the longest text any
successful match position must start with. -/
def patL : List Char := markerL ++ ['{']

/-- Attempt of the anchored regex at the current position: returns the
capture group on success. -/
def tryPec (s : List Char) : Option (List Char) :=
  if markerL.isPrefixOf s then
    let t := s.drop markerL.length
    let body := t.dropLast
    if t.getLast? = some ']' ∧ body.head? = some '{' ∧ body.getLast? = some '}' then
      some body
    else none
  else none

/-- Leftmost match of the PEC regex: returns the text before the match
and the capture group (the match itself runs to the end of the string).
(On the empty string the attempt cannot succeed — `tryPec [] = none`
definitionally — so the scan just fails.) -/
def pecSplit : List Char → Option (List Char × List Char)
  | [] => none
  | c :: t =>
    match tryPec (c :: t) with
    | some body => some ([], body)
    | none => (pecSplit t).map (fun pr => (c :: pr.1, pr.2))

/-- `parsePecMetadata` from `src/src/agent.ts`: regex match, then
`JSON.parse` of the capture with a `try/catch` returning `null`. -/
def parsePecMetadata (description : List Char) : Option Json :=
  match pecSplit description with
  | none => none
  | some (_, blob) => jsonParse blob

/-- `description.replace(PEC_METADATA_REGEX, '')`: removing the leftmost
match (which extends to the end of the string) leaves the text before it. -/
def stripPecSuffix (description : List Char) : List Char :=
  match pecSplit description with
  | none => description
  | some (pre, _) => pre

/-! ## Compliance metadata records (`src/mcp-server/src/tools.ts`) -/

inductive AiClassification where
  | minimal | limited | high | unacceptable
  deriving DecidableEq, Repr

def AiClassification.toChars : AiClassification → List Char
  | .minimal => "minimal".data
  | .limited => "limited".data
  | .high => "high".data
  | .unacceptable => "unacceptable".data

inductive GdprRole where
  | controller | processor | joint_controller
  deriving DecidableEq, Repr

def GdprRole.toChars : GdprRole → List Char
  | .controller => "controller".data
  | .processor => "processor".data
  | .joint_controller => "joint_controller".data

structure AiActStatus where
  classification : AiClassification
  conformity_assessed : Bool
  notified_body : Option (List Char)
  deriving Repr

structure GdprStatus where
  controller_processor_status : GdprRole
  transfer_mechanisms : List (List Char)
  dpa_registered : Bool
  special_categories_processed : Bool
  deriving Repr

structure MetadataCurrency where
  last_updated : List Char
  update_frequency : List Char
  next_scheduled_review : Option (List Char)
  deriving Repr

structure PecComplianceMetadata where
  pec_version : List Char
  processing_locations : List (List Char)
  data_retention_days : Int
  certifications : List (List Char)
  ai_act_status : AiActStatus
  gdpr : GdprStatus
  suitable_for : List (List Char)
  unsuitable_for : List (List Char)
  supply_chain_disclosure : Bool
  metadata_currency : MetadataCurrency
  deriving Repr

def strListJson (l : List (List Char)) : Json := Json.arr (l.map Json.str)

/-- JSON form of `ai_act_status` (field order as declared/constructed in
`tools.ts`; an absent optional field is omitted, as `JSON.stringify`
omits `undefined`). -/
def AiActStatus.toJson (a : AiActStatus) : Json :=
  Json.obj ([("classification".data, Json.str a.classification.toChars),
      ("conformity_assessed".data, Json.bool a.conformity_assessed)]
    ++ (match a.notified_body with
        | some nb => [("notified_body".data, Json.str nb)]
        | none => []))

def GdprStatus.toJson (g : GdprStatus) : Json :=
  Json.obj [("controller_processor_status".data, Json.str g.controller_processor_status.toChars),
    ("transfer_mechanisms".data, strListJson g.transfer_mechanisms),
    ("dpa_registered".data, Json.bool g.dpa_registered),
    ("special_categories_processed".data, Json.bool g.special_categories_processed)]

def MetadataCurrency.toJson (m : MetadataCurrency) : Json :=
  Json.obj ([("last_updated".data, Json.str m.last_updated),
      ("update_frequency".data, Json.str m.update_frequency)]
    ++ (match m.next_scheduled_review with
        | some r => [("next_scheduled_review".data, Json.str r)]
        | none => []))

/-- The object literal serialized inside `buildPecDescription`: the
projection of a compliance record onto the ten PEC fields, in the order
they are written there. -/
def pecToJson (c : PecComplianceMetadata) : Json :=
  Json.obj [("pec_version".data, Json.str c.pec_version),
    ("processing_locations".data, strListJson c.processing_locations),
    ("data_retention_days".data, Json.num c.data_retention_days),
    ("certifications".data, strListJson c.certifications),
    ("ai_act_status".data, c.ai_act_status.toJson),
    ("gdpr".data, c.gdpr.toJson),
    ("suitable_for".data, strListJson c.suitable_for),
    ("unsuitable_for".data, strListJson c.unsuitable_for),
    ("supply_chain_disclosure".data, Json.bool c.supply_chain_disclosure),
    ("metadata_currency".data, c.metadata_currency.toJson)]

/-- `buildPecDescription` from `src/mcp-server/src/index.ts`. -/
def buildPecDescription (baseDescription : List Char)
    (compliance : PecComplianceMetadata) : List Char :=
  baseDescription ++ "\n\n[PEC_COMPLIANCE:".data
    ++ printJson (pecToJson compliance) ++ "]".data

/-- Occurrence of `pat` as a contiguous segment (at any position). -/
def hasSeg (pat : List Char) : List Char → Bool
  | [] => pat.isPrefixOf []
  | c :: t => pat.isPrefixOf (c :: t) || hasSeg pat t

theorem hasSeg_eq_false {pat l : List Char} (h : hasSeg pat l = false) :
    ∀ i, pat.isPrefixOf (l.drop i) = false := by
  induction l with
  | nil =>
    intro i
    rw [List.drop_nil]
    simpa [hasSeg] using h
  | cons c t ih =>
    have h2 : pat.isPrefixOf (c :: t) = false ∧ hasSeg pat t = false := by
      have : hasSeg pat (c :: t) = (pat.isPrefixOf (c :: t) || hasSeg pat t) := rfl
      rw [this, Bool.or_eq_false_iff] at h
      exact h
    intro i
    cases i with
    | zero => exact h2.1
    | succ i =>
      rw [List.drop_succ_cons]
      exact ih h2.2 i

theorem head?_of_dropLast {l : List Char} {x : Char}
    (h : l.dropLast.head? = some x) : l.head? = some x := by
  cases l with
  | nil => simp at h
  | cons c l' =>
    cases l' with
    | nil => simp [List.dropLast] at h
    | cons b l'' =>
      have : (c :: b :: l'').dropLast = c :: (b :: l'').dropLast := rfl
      rw [this, List.head?_cons] at h
      rw [List.head?_cons, h]

/-- Any position where the anchored regex succeeds starts with
`[PEC_COMPLIANCE:\x7b`. -/
theorem tryPec_some_marker {s b : List Char} (h : tryPec s = some b) :
    patL.isPrefixOf s = true := by
  by_cases h1 : markerL.isPrefixOf s
  · have hcond :
        (s.drop markerL.length).getLast? = some ']' ∧
          (s.drop markerL.length).dropLast.head? = some '{' ∧
          (s.drop markerL.length).dropLast.getLast? = some '}' := by
      by_contra hc
      rw [tryPec, if_pos h1, if_neg hc] at h
      exact Option.noConfusion h
    have hhead : (s.drop markerL.length).head? = some '{' := head?_of_dropLast hcond.2.1
    obtain ⟨r, hr⟩ := List.isPrefixOf_iff_prefix.mp h1
    have hrdrop : s.drop markerL.length = r := by rw [← hr, List.drop_left]
    rw [hrdrop] at hhead
    obtain ⟨r', hr'⟩ : ∃ r', r = '{' :: r' := by
      cases r with
      | nil => simp at hhead
      | cons a r' =>
        rw [List.head?_cons, Option.some_inj] at hhead
        exact ⟨r', by rw [hhead]⟩
    apply List.isPrefixOf_iff_prefix.mpr
    refine ⟨r', ?_⟩
    rw [patL, List.append_assoc, List.singleton_append, ← hr', hr]
  · exfalso
    rw [tryPec, if_neg h1] at h
    exact Option.noConfusion h

theorem tryPec_none_of_no_pat {s : List Char} (h : patL.isPrefixOf s = false) :
    tryPec s = none := by
  cases h' : tryPec s with
  | none => rfl
  | some b => rw [tryPec_some_marker h'] at h; exact Bool.noConfusion h

/-- The anchored regex succeeds at the start of a well-formed suffix,
capturing exactly the embedded blob. -/
theorem tryPec_marker_suffix {body : List Char}
    (hh : body.head? = some '{') (hl : body.getLast? = some '}') :
    tryPec (markerL ++ body ++ [']']) = some body := by
  have h1 : markerL.isPrefixOf (markerL ++ body ++ [']']) = true :=
    List.isPrefixOf_iff_prefix.mpr ⟨body ++ [']'], by simp⟩
  have h2 : (markerL ++ body ++ [']']).drop markerL.length = body ++ [']'] := by
    rw [List.append_assoc, List.drop_left]
  rw [tryPec, if_pos h1, h2, if_pos ?side]
  · rw [List.dropLast_concat]
  case side =>
    rw [List.dropLast_concat, List.getLast?_concat]
    exact ⟨rfl, hh, hl⟩

/-- Scanning past a region where every attempt fails lands the leftmost
match on the suffix. -/
theorem pecSplit_append {x sfx body : List Char}
    (hx : ∀ i, i < x.length → tryPec (x.drop i ++ sfx) = none)
    (hs : tryPec sfx = some body) :
    pecSplit (x ++ sfx) = some (x, body) := by
  induction x with
  | nil =>
    rw [List.nil_append]
    cases sfx with
    | nil => exact absurd hs (by rw [show tryPec [] = none from rfl]; exact Option.noConfusion)
    | cons c t =>
      rw [pecSplit, hs]
  | cons c x' ih =>
    have h0 : tryPec (c :: (x' ++ sfx)) = none := by
      have := hx 0 (by simp)
      simpa using this
    have hih : pecSplit (x' ++ sfx) = some (x', body) :=
      ih (fun i hi => by
        have := hx (i + 1) (by simp; omega)
        simpa using this)
    rw [List.cons_append, pecSplit, h0, hih, Option.map_some']

/-- The seventeen characters a match must start with contain no newline. -/
theorem patL_no_newline_overlap {t v : List Char} (hlt : t.length < patL.length)
    (hpre : patL <+: t ++ '\n' :: v) : False := by
  have hnl : ('\n' : Char) ∉ patL := by decide
  have heq := List.prefix_iff_eq_take.mp hpre
  rw [List.take_append_eq_append_take] at heq
  have htt : t.take patL.length = t := List.take_of_length_le (by omega)
  obtain ⟨m, hm⟩ : ∃ m, patL.length - t.length = m + 1 := ⟨patL.length - t.length - 1, by omega⟩
  rw [htt, hm, List.take_succ_cons] at heq
  exact hnl (heq ▸ List.mem_append_right t (List.mem_cons_self '\n' _))

/-- If the pattern does not occur in `d`, the regex fails at every
position strictly before the appended marker suffix. -/
theorem no_pat_before {d : List Char} (sfx : List Char)
    (hseg : hasSeg patL d = false) :
    ∀ i, i < (d ++ ['\n', '\n']).length →
      patL.isPrefixOf ((d ++ ['\n', '\n']).drop i ++ sfx) = false := by
  intro i hi
  have hi2 : i < d.length + 2 := by
    rw [List.length_append] at hi
    simpa using hi
  by_contra hP
  have hpre : patL <+: ((d ++ ['\n', '\n']).drop i ++ sfx) := by
    apply List.isPrefixOf_iff_prefix.mp
    cases hb : patL.isPrefixOf ((d ++ ['\n', '\n']).drop i ++ sfx) with
    | true => rfl
    | false => exact absurd hb hP
  by_cases hcase : i + patL.length ≤ d.length
  · have hdrop : (d ++ ['\n', '\n']).drop i = d.drop i ++ ['\n', '\n'] := by
      rw [List.drop_append_eq_append_drop]
      have h0 : i - d.length = 0 := by omega
      rw [h0, List.drop_zero]
    rw [hdrop, List.append_assoc] at hpre
    have heq := List.prefix_iff_eq_take.mp hpre
    rw [List.take_append_eq_append_take] at heq
    have h0 : patL.length - (d.drop i).length = 0 := by
      rw [List.length_drop]; omega
    rw [h0, List.take_zero, List.append_nil] at heq
    have hpre2 : patL <+: d.drop i := heq ▸ List.take_prefix _ _
    have := List.isPrefixOf_iff_prefix.mpr hpre2
    rw [hasSeg_eq_false hseg i] at this
    exact Bool.noConfusion this
  · by_cases hid : i ≤ d.length
    · have hdrop : (d ++ ['\n', '\n']).drop i = d.drop i ++ ['\n', '\n'] := by
        rw [List.drop_append_eq_append_drop]
        have h0 : i - d.length = 0 := by omega
        rw [h0, List.drop_zero]
      rw [hdrop, List.append_assoc] at hpre
      exact patL_no_newline_overlap (by rw [List.length_drop]; omega) hpre
    · have hieq : i = d.length + 1 := by omega
      have hdrop : (d ++ ['\n', '\n']).drop i = ['\n'] := by
        rw [List.drop_append_eq_append_drop, List.drop_eq_nil_of_le (by omega),
          List.nil_append, hieq]
        have h1 : d.length + 1 - d.length = 1 := by omega
        rw [h1]
        rfl
      rw [hdrop] at hpre
      exact patL_no_newline_overlap (t := []) (by simp [patL]) hpre

theorem printJson_obj_getLast (kvs : List (List Char × Json)) :
    (printJson (Json.obj kvs)).getLast? = some '}' := by
  show (('{' :: printMembers kvs) ++ ['}']).getLast? = some '}'
  rw [List.getLast?_concat]

/-- Building a description then parsing it back recovers exactly the
ten-field projection, provided the base text does not itself contain
`[PEC_COMPLIANCE:\x7b` (which would shift the leftmost regex match). -/
theorem parsePec_build {d : List Char} (c : PecComplianceMetadata)
    (hseg : hasSeg patL d = false) :
    parsePecMetadata (buildPecDescription d c) = some (pecToJson c) := by
  have hh : (printJson (pecToJson c)).head? = some '{' := rfl
  have hl : (printJson (pecToJson c)).getLast? = some '}' := printJson_obj_getLast _
  have harr : buildPecDescription d c
      = (d ++ ['\n', '\n']) ++ (markerL ++ printJson (pecToJson c) ++ [']']) := by
    show d ++ "\n\n[PEC_COMPLIANCE:".data ++ printJson (pecToJson c) ++ "]".data = _
    rw [show "\n\n[PEC_COMPLIANCE:".data = ['\n', '\n'] ++ markerL from rfl,
      show "]".data = [']'] from rfl]
    simp [List.append_assoc]
  have htry := tryPec_marker_suffix hh hl
  have hsplit : pecSplit (buildPecDescription d c)
      = some (d ++ ['\n', '\n'], printJson (pecToJson c)) := by
    rw [harr]
    exact pecSplit_append
      (fun i hi => tryPec_none_of_no_pat (no_pat_before _ hseg i hi)) htry
  unfold parsePecMetadata
  rw [hsplit]
  exact jsonParse_print (pecToJson c)

/-! ## The four tools of the MCP server (`src/mcp-server/src/tools.ts`)

Only the data the claims are about is modelled: names, descriptions and
compliance metadata.  The zod input/output schemas and the `execute`
bodies are external to the policy evaluation and are not modelled. -/

structure PecTool where
  name : List Char
  description : List Char
  compliance : PecComplianceMetadata
  deriving Repr

def complianceEuBanking : PecComplianceMetadata :=
  { pec_version := "1.0".data
    processing_locations := ["DE".data, "IE".data]
    data_retention_days := 90
    certifications := ["ISO_27001".data, "SOC2_TYPE_II".data, "PCI_DSS".data]
    ai_act_status :=
      { classification := .limited
        conformity_assessed := true
        notified_body := some "TÜV_SÜD".data }
    gdpr :=
      { controller_processor_status := .processor
        transfer_mechanisms := ["ADEQUACY".data]
        dpa_registered := true
        special_categories_processed := false }
    suitable_for := ["payment_processing".data, "fraud_detection".data,
      "financial_analytics".data, "translation".data]
    unsuitable_for := ["healthcare".data, "biometric_identification".data]
    supply_chain_disclosure := true
    metadata_currency :=
      { last_updated := "2026-01-12T00:00:00Z".data
        update_frequency := "weekly".data
        next_scheduled_review := some "2026-01-19T00:00:00Z".data } }

def complianceEuMinimal : PecComplianceMetadata :=
  { pec_version := "1.0".data
    processing_locations := ["NL".data, "FR".data]
    data_retention_days := 30
    certifications := ["ISO_27001".data]
    ai_act_status :=
      { classification := .minimal
        conformity_assessed := true
        notified_body := none }
    gdpr :=
      { controller_processor_status := .processor
        transfer_mechanisms := ["ADEQUACY".data]
        dpa_registered := true
        special_categories_processed := false }
    suitable_for := ["text_processing".data, "ocr".data, "document_analysis".data]
    unsuitable_for := ["biometric_identification".data, "emotion_recognition".data]
    supply_chain_disclosure := true
    metadata_currency :=
      { last_updated := "2026-01-10T00:00:00Z".data
        update_frequency := "weekly".data
        next_scheduled_review := none } }

def complianceUsHealthcare : PecComplianceMetadata :=
  { pec_version := "1.0".data
    processing_locations := ["US".data]
    data_retention_days := 2555
    certifications := ["HIPAA_COMPLIANT".data, "SOC2_TYPE_II".data, "HITRUST".data]
    ai_act_status :=
      { classification := .high
        conformity_assessed := false
        notified_body := none }
    gdpr :=
      { controller_processor_status := .processor
        transfer_mechanisms := []
        dpa_registered := false
        special_categories_processed := true }
    suitable_for := ["healthcare_analysis".data, "medical_records".data,
      "clinical_research".data]
    unsuitable_for := ["eu_personal_data".data, "gdpr_scope".data]
    supply_chain_disclosure := true
    metadata_currency :=
      { last_updated := "2026-01-08T00:00:00Z".data
        update_frequency := "weekly".data
        next_scheduled_review := none } }

def complianceNonCompliant : PecComplianceMetadata :=
  { pec_version := "1.0".data
    processing_locations := ["CN".data]
    data_retention_days := 365
    certifications := []
    ai_act_status :=
      { classification := .limited
        conformity_assessed := false
        notified_body := none }
    gdpr :=
      { controller_processor_status := .controller
        transfer_mechanisms := []
        dpa_registered := false
        special_categories_processed := false }
    suitable_for := ["internal_testing".data, "batch_processing".data]
    unsuitable_for := ["eu_personal_data".data, "gdpr_scope".data, "us_government".data]
    supply_chain_disclosure := false
    metadata_currency :=
      { last_updated := "2025-06-01T00:00:00Z".data
        update_frequency := "monthly".data
        next_scheduled_review := none } }

def euPaymentProcessor : PecTool :=
  { name := "eu_payment_processor".data
    description := "Processes payments within the EU. PCI-DSS certified, GDPR compliant. Located in Germany and Ireland.".data
    compliance := complianceEuBanking }

def documentScanner : PecTool :=
  { name := "document_scanner".data
    description := "Scans and extracts text from documents using OCR. EU compliant, minimal risk classification.".data
    compliance := complianceEuMinimal }

def clinicalAnalyser : PecTool :=
  { name := "clinical_analyser".data
    description := "Analyses clinical records for US healthcare providers. HIPAA and HITRUST certified.".data
    compliance := complianceUsHealthcare }

def offshoreCompute : PecTool :=
  { name := "offshore_compute".data
    description := "General compute service. NOT EU/GDPR compliant - processes in China without certifications.".data
    compliance := complianceNonCompliant }

def allTools : List PecTool :=
  [euPaymentProcessor, documentScanner, clinicalAnalyser, offshoreCompute]

/-- An MCP tool as the server exposes it: id and description string
(with the embedded PEC blob).  Schemas/execute bodies are external. -/
structure McpToolDef where
  id : List Char
  description : List Char
  deriving Repr

/-- `createTool(\x7b id: 'eu_payment_processor', description:
buildPecDescription(..., allTools[0].compliance), ... \x7d)` from
`src/mcp-server/src/index.ts`, positional index as in the source. -/
def euPaymentProcessorMcp : McpToolDef :=
  { id := "eu_payment_processor".data
    description := buildPecDescription
      "Processes payments within the EU. PCI-DSS certified, GDPR compliant. Located in Germany and Ireland.".data
      (allTools.get ⟨0, by decide⟩).compliance }

def documentScannerMcp : McpToolDef :=
  { id := "document_scanner".data
    description := buildPecDescription
      "Scans and extracts text from documents using OCR. EU compliant, minimal risk classification.".data
      (allTools.get ⟨1, by decide⟩).compliance }

def clinicalAnalyserMcp : McpToolDef :=
  { id := "clinical_analyser".data
    description := buildPecDescription
      "Analyses clinical records for US healthcare providers. HIPAA and HITRUST certified.".data
      (allTools.get ⟨2, by decide⟩).compliance }

def offshoreComputeMcp : McpToolDef :=
  { id := "offshore_compute".data
    description := buildPecDescription
      "General compute service. NOT EU/GDPR compliant - processes in China without certifications.".data
      (allTools.get ⟨3, by decide⟩).compliance }

/-- The `mastraTools` record handed to the `MCPServer`, in declaration
order. -/
def mastraTools : List McpToolDef :=
  [euPaymentProcessorMcp, documentScannerMcp, clinicalAnalyserMcp, offshoreComputeMcp]

/-! ## Tool discovery (`connectToMcpServer`, `src/src/agent.ts`) -/

structure DiscoveredPecTool where
  name : List Char
  description : List Char
  compliance : Json
  deriving Repr

/-- A raw MCP tool as returned by `client.getTools()`: only the
description is read by the repository's code (`execute` is an external
async function and is not modelled). -/
structure RawToolDef where
  description : Option (List Char)
  deriving Repr

/-- `toolName.replace(/^[^_]+_/, '')`: strips a nonempty run of
non-underscore characters and the following underscore, if present. -/
def cleanToolName (toolName : List Char) : List Char :=
  let pre := toolName.takeWhile (fun c => c != '_')
  if pre.isEmpty then toolName
  else
    match toolName.drop pre.length with
    | '_' :: rest => rest
    | _ => toolName

/-- The whitespace class of `String.prototype.trim` (restricted to the
ASCII whitespace occurring in this repository's strings). -/
def isTrimWs (c : Char) : Bool :=
  c = ' ' || c = '\t' || c = '\n' || c = '\r' || c = Char.ofNat 11 || c = Char.ofNat 12

def trimChars (s : List Char) : List Char :=
  ((s.dropWhile isTrimWs).reverse.dropWhile isTrimWs).reverse

structure McpConnection where
  tools : List DiscoveredPecTool
  rawTools : List (List Char × RawToolDef)
  deriving Repr

/-- The discovery loop of `connectToMcpServer`: for each raw tool, parse
the PEC blob out of its description; on success push a cleaned-up
`DiscoveredPecTool`, otherwise skip the tool. -/
def discoverPecTools (rawTools : List (List Char × RawToolDef)) :
    List DiscoveredPecTool :=
  rawTools.filterMap (fun pr =>
    let description := pr.2.description.getD []
    match parsePecMetadata description with
    | some compliance =>
      some { name := cleanToolName pr.1
             description := trimChars (stripPecSuffix description)
             compliance := compliance }
    | none => none)

/-- `connectToMcpServer` (transport externalized: the raw tool map is
the input; `client`/`disconnect` are connection plumbing). -/
def connectToMcpServer (rawTools : List (List Char × RawToolDef)) : McpConnection :=
  { tools := discoverPecTools rawTools, rawTools := rawTools }

/-! ## Policy evaluation engine

The `@protocol-embedded-compliance/policy-cards` package is imported by
the example but its code is not part of this repository; the definitions
below are modelled from the specification (sections 3, 4.1-4.4, 4.6,
4.7). -/

/-- Modelled from the spec: the fixed operator set of §4.3.  (`exists` is
a Lean keyword, hence the trailing underscore.) -/
inductive Op where
  | equals | not_equals | any_of | not_any_of | contains | not_contains
  | exists_ | not_exists
  | greater_than | less_than | greater_than_or_equal | less_than_or_equal
  deriving DecidableEq, Repr

/-- Modelled from the spec: a Condition is a (field path, operator,
operand) triple (§3). -/
structure Condition where
  field : List Char
  operator : Op
  operand : Json
  deriving Repr

inductive Effect where
  | deny | warn
  deriving DecidableEq, Repr

/-- Modelled from the spec: Rule (§3). -/
structure Rule where
  id : List Char
  effect : Effect
  condition : Condition
  reason : List Char
  deriving Repr

structure Scope where
  ai_act_risk_level : Option (List Char)
  geography : Option (List (List Char))
  intended_uses : Option (List (List Char))
  deriving Repr

/-- Modelled from the spec: PolicyDocument (§3), restricted to the parts
the example exercises (escalation triggers, monitoring detectors, KPI
thresholds and assurance mapping are not touched by any claim). -/
structure PolicyCard where
  policy_card_version : List Char
  name : List Char
  scope : Scope
  rules : List Rule
  deriving Repr

/-- Splits a dotted field path on `.`. -/
def splitPath : List Char → List (List Char)
  | [] => [[]]
  | c :: rest =>
    if c = '.' then [] :: splitPath rest
    else
      match splitPath rest with
      | h :: t => (c :: h) :: t
      | [] => [[c]]

/-- Lookup in an object; the last binding wins, as later duplicate keys
overwrite earlier ones in a JavaScript object. -/
def lookupLast (kvs : List (List Char × Json)) (k : List Char) : Option Json :=
  match kvs with
  | [] => none
  | (k', v) :: rest =>
    match lookupLast rest k with
    | some r => some r
    | none => if k' = k then some v else none

/-- Modelled from the spec: Field Resolver (§4.2) — descend through
nested maps; a missing key or a non-map mid-path yields `none` (absent),
never an error. -/
def resolveField : Json → List (List Char) → Option Json
  | v, [] => some v
  | Json.obj kvs, k :: rest =>
    match lookupLast kvs k with
    | some v => resolveField v rest
    | none => none
  | _, _ :: _ => none

/-- Scalar-or-list view of a resolved value, used by `any_of`. -/
def toValList : Json → List Json
  | Json.arr xs => xs
  | v => [v]

def operandList : Json → List Json
  | Json.arr ys => ys
  | y => [y]

/-- Modelled from the spec: Operator Library (§4.3) — each operator is
total over (resolved value, operand); absent fields take the fail-safe
value of the table. -/
def evalOp (op : Op) (v : Option Json) (operand : Json) : Bool :=
  match op with
  | .equals =>
    match v with
    | some x => jsonBEq x operand
    | none => false
  | .not_equals =>
    match v with
    | some x => !jsonBEq x operand
    | none => true
  | .any_of =>
    match v with
    | some x => (toValList x).any (fun e => (operandList operand).any (fun y => jsonBEq e y))
    | none => false
  | .not_any_of =>
    match v with
    | some x => !(toValList x).any (fun e => (operandList operand).any (fun y => jsonBEq e y))
    | none => true
  | .contains =>
    match v with
    | some (Json.arr xs) => xs.any (fun e => jsonBEq e operand)
    | _ => false
  | .not_contains =>
    match v with
    | some (Json.arr xs) => !xs.any (fun e => jsonBEq e operand)
    | _ => true
  | .exists_ => v.isSome
  | .not_exists => v.isNone
  | .greater_than =>
    match v, operand with
    | some (Json.num n), Json.num m => decide (m < n)
    | _, _ => false
  | .less_than =>
    match v, operand with
    | some (Json.num n), Json.num m => decide (n < m)
    | _, _ => false
  | .greater_than_or_equal =>
    match v, operand with
    | some (Json.num n), Json.num m => decide (m ≤ n)
    | _, _ => false
  | .less_than_or_equal =>
    match v, operand with
    | some (Json.num n), Json.num m => decide (n ≤ m)
    | _, _ => false

/-- Modelled from the spec: Condition Evaluator (§2) — resolve the field
and apply the operator. -/
def condHolds (c : Condition) (metadata : Json) : Bool :=
  evalOp c.operator (resolveField metadata (splitPath c.field)) c.operand

structure Violation where
  rule_id : List Char
  reason : List Char
  deriving Repr

structure Warning where
  rule_id : List Char
  reason : List Char
  deriving Repr

/-- Modelled from the spec: EvaluationResult (§3). -/
structure EvaluationResult where
  compliant : Bool
  violations : List Violation
  warnings : List Warning
  deriving Repr

/-- Modelled from the spec: Rule Engine §4.4 — every rule is evaluated
in document order with no short-circuit; `compliant` is true iff no
`deny` rule matched; matched deny rules become violations, matched warn
rules become warnings.  (`capabilityName` is carried for the audit trail
and does not influence the result.) -/
def evaluatePolicyCard (policyCard : PolicyCard) (metadata : Json)
    (capabilityName : List Char) : EvaluationResult :=
  { compliant :=
      !(policyCard.rules.any (fun r => r.effect == .deny && condHolds r.condition metadata))
    violations :=
      (policyCard.rules.filter
          (fun r => r.effect == .deny && condHolds r.condition metadata)).map
        (fun r => { rule_id := r.id, reason := r.reason })
    warnings :=
      (policyCard.rules.filter
          (fun r => r.effect == .warn && condHolds r.condition metadata)).map
        (fun r => { rule_id := r.id, reason := r.reason }) }

/-- Modelled from the spec: AuditEvidence (§3), restricted to the fields
the claims are about (the wall-clock timestamp and the metadata content
hash are external time/crypto and are not modelled). -/
structure AuditEvidence where
  capability_name : List Char
  evaluation : EvaluationResult
  sequence : Nat
  deriving Repr

/-- Modelled from the spec: the Audit Recorder's state — the policy it
was constructed over and its append-only evidence log. -/
structure PolicyCardAuditor where
  policyCard : PolicyCard
  log : List AuditEvidence
  deriving Repr

/-- `new PolicyCardAuditor(policyCard)`: a fresh recorder with an empty
log. -/
def newAuditor (policyCard : PolicyCard) : PolicyCardAuditor :=
  { policyCard := policyCard, log := [] }

structure EvalRecord where
  evaluation : EvaluationResult
  evidence : AuditEvidence
  deriving Repr

/-- Modelled from the spec: §4.6 Audit Recorder —
`evaluateAndRecord(capabilityName, metadata)` internally calls the rule
engine (§4.4), wraps the result into evidence with the next sequence
number, appends it to the log, and returns both. -/
def evaluateAndRecord (a : PolicyCardAuditor) (capabilityName : List Char)
    (metadata : Json) : EvalRecord × PolicyCardAuditor :=
  let evaluation := evaluatePolicyCard a.policyCard metadata capabilityName
  let evidence : AuditEvidence :=
    { capability_name := capabilityName
      evaluation := evaluation
      sequence := a.log.length }
  ({ evaluation := evaluation, evidence := evidence },
    { a with log := a.log ++ [evidence] })

structure ReportSummary where
  total_invocations : Nat
  compliant : Nat
  rejected : Nat
  deriving Repr

/-- Modelled from the spec: AuditReport (§3/§4.7), restricted to the
summary counts the claims are about (KPI classification, assurance
coverage and the evidence hash chain are not touched by any claim). -/
structure AuditReport where
  policy_name : List Char
  summary : ReportSummary
  deriving Repr

/-- Modelled from the spec: §4.7 step 1 — total = log length, compliant
= count of compliant evaluations, rejected = total − compliant. -/
def generateReport (a : PolicyCardAuditor) : AuditReport :=
  let total := a.log.length
  let compliantCount := (a.log.filter (fun e => e.evaluation.compliant)).length
  { policy_name := a.policyCard.name
    summary :=
      { total_invocations := total
        compliant := compliantCount
        rejected := total - compliantCount } }

/-! ## `filterToolsByPolicyCard` (`src/src/agent.ts`) -/

structure RejectedTool where
  tool : DiscoveredPecTool
  violations : List (List Char)
  deriving Repr

structure FilterOutcome where
  compliant : List DiscoveredPecTool
  rejected : List RejectedTool
  deriving Repr

/-- `filterToolsByPolicyCard` — one evaluation per tool (through the
auditor when one is supplied), pushing the tool into the compliant list
or into the rejected list with its violation reasons.  The auditor's
mutation is modelled by threading its state. -/
def filterToolsByPolicyCard :
    List DiscoveredPecTool → PolicyCard → Option PolicyCardAuditor →
      FilterOutcome × Option PolicyCardAuditor
  | [], _, auditor => ({ compliant := [], rejected := [] }, auditor)
  | tool :: rest, policyCard, auditor =>
    let step : EvaluationResult × Option PolicyCardAuditor :=
      match auditor with
      | some a =>
        let r := evaluateAndRecord a tool.name tool.compliance
        (r.1.evaluation, some r.2)
      | none => (evaluatePolicyCard policyCard tool.compliance tool.name, none)
    let next := filterToolsByPolicyCard rest policyCard step.2
    if step.1.compliant then
      ({ compliant := tool :: next.1.compliant, rejected := next.1.rejected }, next.2)
    else
      ({ compliant := next.1.compliant
         rejected := { tool := tool, violations := step.1.violations.map (fun v => v.reason) }
           :: next.1.rejected }, next.2)

/-! ## Policy loader -/

structure LoadResult where
  success : Bool
  policyCard : Option PolicyCard
  errors : List (List Char)
  deriving Repr

def getKey (doc : Json) (k : List Char) : Option Json :=
  match doc with
  | Json.obj kvs => lookupLast kvs k
  | _ => none

def asStr : Json → Option (List Char)
  | Json.str s => some s
  | _ => none

def asStrList : Json → Option (List (List Char))
  | Json.arr xs =>
    xs.foldr
      (fun x acc =>
        match x, acc with
        | Json.str s, some l => some (s :: l)
        | _, _ => none)
      (some [])
  | _ => none

/-- Modelled from the spec: the fixed operator names rejected at load
time when unrecognized (§4.1, §7). -/
def opOfName (s : List Char) : Option Op :=
  if s = "equals".data then some .equals
  else if s = "not_equals".data then some .not_equals
  else if s = "any_of".data then some .any_of
  else if s = "not_any_of".data then some .not_any_of
  else if s = "contains".data then some .contains
  else if s = "not_contains".data then some .not_contains
  else if s = "exists".data then some .exists_
  else if s = "not_exists".data then some .not_exists
  else if s = "greater_than".data then some .greater_than
  else if s = "less_than".data then some .less_than
  else if s = "greater_than_or_equal".data then some .greater_than_or_equal
  else if s = "less_than_or_equal".data then some .less_than_or_equal
  else none

/-- Modelled from the spec: operand type compatibility with the operator
(§4.1): membership operators need a list, numeric comparisons a number. -/
def operandCompatible (op : Op) (operand : Json) : Bool :=
  match op with
  | .any_of | .not_any_of =>
    match operand with
    | Json.arr _ => true
    | _ => false
  | .greater_than | .less_than | .greater_than_or_equal | .less_than_or_equal =>
    match operand with
    | Json.num _ => true
    | _ => false
  | _ => true

/-- Modelled from the spec: validation of one rule (§4.1) — id present
and nonempty, effect one of deny/warn, condition with a known operator
and a compatible operand, and a reason; all failures are reported. -/
def parseRule (j : Json) : List (List Char) × Option Rule :=
  let idOpt := (getKey j "id".data).bind asStr
  let idOk :=
    match idOpt with
    | some s => !s.isEmpty
    | none => false
  let effectOpt : Option Effect :=
    match (getKey j "effect".data).bind asStr with
    | some s =>
      if s = "deny".data then some .deny
      else if s = "warn".data then some .warn
      else none
    | none => none
  let condOpt : Option Condition :=
    match getKey j "condition".data with
    | some cj =>
      match (getKey cj "field".data).bind asStr,
          ((getKey cj "operator".data).bind asStr).bind opOfName with
      | some fld, some op =>
        let operand :=
          ((getKey cj "values".data).orElse (fun _ => getKey cj "value".data)).getD Json.null
        if operandCompatible op operand then
          some { field := fld, operator := op, operand := operand }
        else none
      | _, _ => none
    | none => none
  let reasonOpt := (getKey j "reason".data).bind asStr
  let errs :=
    (if idOk then [] else ["rule missing or invalid id".data])
      ++ (if effectOpt.isNone then ["rule missing or unknown effect".data] else [])
      ++ (if condOpt.isNone then ["rule missing or malformed condition".data] else [])
      ++ (if reasonOpt.isNone then ["rule missing reason".data] else [])
  match errs, idOpt, effectOpt, condOpt, reasonOpt with
  | [], some i, some e, some c, some r =>
    ([], some { id := i, effect := e, condition := c, reason := r })
  | _, _, _, _, _ => (errs, none)

def hasDupIds : List Rule → Bool
  | [] => false
  | r :: rest => rest.any (fun r' => r'.id == r.id) || hasDupIds rest

def scopeOf (doc : Json) : Option Scope :=
  match getKey doc "scope".data with
  | some s =>
    some { ai_act_risk_level := (getKey s "ai_act_risk_level".data).bind asStr
           geography := (getKey s "geography".data).bind asStrList
           intended_uses := (getKey s "intended_uses".data).bind asStrList }
  | none => none

def rulesJsonOf (doc : Json) : Option (List Json) :=
  match getKey doc "rules".data with
  | some (Json.arr xs) => some xs
  | _ => none

/-- The rules that validated, in document order. -/
def loadRules (doc : Json) : List Rule :=
  (((rulesJsonOf doc).getD []).map parseRule).filterMap Prod.snd

/-- Modelled from the spec: the complete list of validation failures of
§4.1 — missing required top-level keys, per-rule failures, and
duplicate rule ids; never truncated to a first error. -/
def loadErrors (doc : Json) : List (List Char) :=
  (if ((getKey doc "policy_card_version".data).bind asStr).isNone
    then ["missing or invalid policy_card_version".data] else [])
  ++ (if ((getKey doc "name".data).bind asStr).isNone
    then ["missing or invalid name".data] else [])
  ++ (if (scopeOf doc).isNone then ["missing scope".data] else [])
  ++ (if (rulesJsonOf doc).isNone then ["missing or invalid rules".data] else [])
  ++ ((((rulesJsonOf doc).getD []).map parseRule).map Prod.fst).flatten
  ++ (if hasDupIds (loadRules doc) then ["duplicate rule id".data] else [])

/-- Modelled from the spec: Policy Loader §4.1 — parse the (already
textually decoded) document into the typed model, collecting the
complete list of validation errors; on any failure no partial document
is returned.  (The success branch's `getD` defaults are never taken:
with an empty error list every component is present.) -/
def loadPolicyCard (doc : Json) : LoadResult :=
  if loadErrors doc = [] then
    { success := true
      policyCard := some
        { policy_card_version := ((getKey doc "policy_card_version".data).bind asStr).getD []
          name := ((getKey doc "name".data).bind asStr).getD []
          scope := (scopeOf doc).getD
            { ai_act_risk_level := none, geography := none, intended_uses := none }
          rules := loadRules doc }
      errors := [] }
  else { success := false, policyCard := none, errors := loadErrors doc }

/-! ## `createGovernedAgent` (`src/src/agent.ts`) -/

structure GovernedAgentConfig where
  policyCardSource : Json
  mcpConnection : McpConnection

/-- The result of `createGovernedAgent`.  `agentTools` is the `tools`
map handed to the `Agent` constructor (the LLM plumbing around it is
external). -/
structure GovernedAgentResult where
  agentTools : List (List Char × RawToolDef)
  policyCard : PolicyCard
  auditor : PolicyCardAuditor
  compliantTools : List DiscoveredPecTool
  rejectedTools : List RejectedTool
  toolCount : Nat

/-- `errors.join(', ')`. -/
def joinComma : List (List Char) → List Char
  | [] => []
  | [e] => e
  | e :: e2 :: rest => e ++ ", ".data ++ joinComma (e2 :: rest)

/-- The message of the error thrown on load failure. -/
def failToLoadMessage (errors : List (List Char)) : List Char :=
  "Failed to load policy card: ".data ++ joinComma errors

/-- `Object.keys(rawTools).find(k => k.endsWith('_' + tool.name))`. -/
def findRawKey (raws : List (List Char × RawToolDef)) (toolName : List Char) :
    Option (List Char) :=
  (raws.map Prod.fst).find? (fun k => ('_' :: toolName).isSuffixOf k)

/-- JavaScript object assignment `m[k] = v`: replace an existing binding
in place, or append a new one. -/
def upsert (m : List (List Char × RawToolDef)) (k : List Char) (v : RawToolDef) :
    List (List Char × RawToolDef) :=
  if m.any (fun p => p.1 == k) then
    m.map (fun p => if p.1 == k then (k, v) else p)
  else m ++ [(k, v)]

/-- The `toolsMap` loop of `createGovernedAgent`: for each compliant
tool, find the raw key ending in `_name` and expose the raw tool under
the clean name; tools without a matching raw key are skipped. -/
def buildToolsMap (compliant : List DiscoveredPecTool)
    (raws : List (List Char × RawToolDef)) : List (List Char × RawToolDef) :=
  compliant.foldl
    (fun acc tool =>
      match findRawKey raws tool.name with
      | some rawKey =>
        match List.lookup rawKey raws with
        | some rawTool => upsert acc tool.name rawTool
        | none => acc
      | none => acc)
    []

/-- `createGovernedAgent`: load the policy card (throwing with the
loader's errors on failure — modelled as `Except.error` carrying the
thrown message), construct a fresh auditor, filter the discovered tools
through it, and expose only the compliant tools to the agent. -/
def createGovernedAgent (config : GovernedAgentConfig) :
    Except (List Char) GovernedAgentResult :=
  let loadResult := loadPolicyCard config.policyCardSource
  match loadResult.success, loadResult.policyCard with
  | true, some policyCard =>
    let auditor := newAuditor policyCard
    let mcpTools := config.mcpConnection.tools
    let toolCount := mcpTools.length
    let fr := filterToolsByPolicyCard mcpTools policyCard (some auditor)
    -- the `some`-auditor branch always returns `some`
    let auditorAfter := fr.2.getD auditor
    .ok
      { agentTools := buildToolsMap fr.1.compliant config.mcpConnection.rawTools
        policyCard := policyCard
        auditor := auditorAfter
        compliantTools := fr.1.compliant
        rejectedTools := fr.1.rejected
        toolCount := toolCount }
  | _, _ => .error (failToLoadMessage loadResult.errors)

/-! ## Invariants of the rule engine and the filter -/

theorem eval_compliant_iff (policyCard : PolicyCard) (metadata : Json)
    (capabilityName : List Char) :
    (evaluatePolicyCard policyCard metadata capabilityName).compliant = true ↔
      (evaluatePolicyCard policyCard metadata capabilityName).violations = [] := by
  simp only [evaluatePolicyCard, Bool.not_eq_true', List.any_eq_false,
    List.map_eq_nil_iff, List.filter_eq_nil_iff]

/-- Characterization of `filterToolsByPolicyCard` without an auditor:
compliant and rejected are order-preserving filters of the input. -/
theorem filter_none_spec (tools : List DiscoveredPecTool) (policyCard : PolicyCard) :
    filterToolsByPolicyCard tools policyCard none =
      ({ compliant := tools.filter
            (fun t => (evaluatePolicyCard policyCard t.compliance t.name).compliant)
         rejected := (tools.filter
            (fun t => !(evaluatePolicyCard policyCard t.compliance t.name).compliant)).map
          (fun t =>
            { tool := t
              violations := (evaluatePolicyCard policyCard t.compliance t.name).violations.map
                (fun v => v.reason) }) }, none) := by
  induction tools with
  | nil => simp [filterToolsByPolicyCard]
  | cons t rest ih =>
    by_cases hc : (evaluatePolicyCard policyCard t.compliance t.name).compliant
    · simp [filterToolsByPolicyCard, ih, hc, List.filter_cons]
    · simp [filterToolsByPolicyCard, ih, hc, List.filter_cons]

/-- The evidence entries recorded while filtering `tools`, starting at a
given sequence number. -/
def evidencesFor (policyCard : PolicyCard) (start : Nat) :
    List DiscoveredPecTool → List AuditEvidence
  | [] => []
  | t :: rest =>
    { capability_name := t.name
      evaluation := evaluatePolicyCard policyCard t.compliance t.name
      sequence := start } :: evidencesFor policyCard (start + 1) rest

theorem evidencesFor_length (policyCard : PolicyCard) (start : Nat)
    (tools : List DiscoveredPecTool) :
    (evidencesFor policyCard start tools).length = tools.length := by
  induction tools generalizing start with
  | nil => rfl
  | cons t rest ih => simp [evidencesFor, ih]

theorem evidencesFor_compliant_count (policyCard : PolicyCard) (start : Nat)
    (tools : List DiscoveredPecTool) :
    ((evidencesFor policyCard start tools).filter
        (fun e => e.evaluation.compliant)).length
      = (tools.filter
          (fun t => (evaluatePolicyCard policyCard t.compliance t.name).compliant)).length := by
  induction tools generalizing start with
  | nil => rfl
  | cons t rest ih =>
    by_cases hc : (evaluatePolicyCard policyCard t.compliance t.name).compliant
    · simp [evidencesFor, List.filter_cons, hc, ih]
    · simp [evidencesFor, List.filter_cons, hc, ih]

/-- Threading an auditor changes neither partition (the auditor
evaluates over the policy card it was constructed with), and the final
auditor carries the original log extended by one evidence entry per
tool. -/
theorem filter_some_spec (tools : List DiscoveredPecTool) (policyCard : PolicyCard)
    (a : PolicyCardAuditor) :
    (filterToolsByPolicyCard tools policyCard (some a)).1
        = (filterToolsByPolicyCard tools a.policyCard none).1 ∧
      (filterToolsByPolicyCard tools policyCard (some a)).2
        = some { policyCard := a.policyCard
                 log := a.log ++ evidencesFor a.policyCard a.log.length tools } := by
  induction tools generalizing a with
  | nil => simp [filterToolsByPolicyCard, evidencesFor]
  | cons t rest ih =>
    obtain ⟨ih1, ih2⟩ := ih
      { policyCard := a.policyCard
        log := a.log ++ [{ capability_name := t.name
                           evaluation := evaluatePolicyCard a.policyCard t.compliance t.name
                           sequence := a.log.length }] }
    constructor
    · show (filterToolsByPolicyCard (t :: rest) policyCard (some a)).1 = _
      by_cases hc : (evaluatePolicyCard a.policyCard t.compliance t.name).compliant
      · simp [filterToolsByPolicyCard, evaluateAndRecord, hc, ih1]
      · simp [filterToolsByPolicyCard, evaluateAndRecord, hc, ih1]
    · by_cases hc : (evaluatePolicyCard a.policyCard t.compliance t.name).compliant
      · simp only [filterToolsByPolicyCard, evaluateAndRecord, hc, if_pos, ih2,
          evidencesFor]
        simp [evidencesFor, List.append_assoc]
      · simp only [filterToolsByPolicyCard, evaluateAndRecord, hc, ih2, evidencesFor]
        simp [evidencesFor, List.append_assoc]

/-! ## Loader and governed-agent construction invariants -/

/-- The loader either succeeds with a document and no errors, or fails
with no partial document and a nonempty error list. -/
theorem loadPolicyCard_shape (doc : Json) :
    ((loadPolicyCard doc).success = true ∧ (loadPolicyCard doc).errors = []
        ∧ (loadPolicyCard doc).policyCard.isSome = true) ∨
      ((loadPolicyCard doc).success = false ∧ (loadPolicyCard doc).policyCard = none
        ∧ (loadPolicyCard doc).errors ≠ []) := by
  by_cases h : loadErrors doc = []
  · left
    simp [loadPolicyCard, h]
  · right
    simp [loadPolicyCard, h]

theorem createGovernedAgent_fail (config : GovernedAgentConfig)
    (h : (loadPolicyCard config.policyCardSource).success = false ∨
      (loadPolicyCard config.policyCardSource).policyCard = none) :
    createGovernedAgent config
      = .error (failToLoadMessage (loadPolicyCard config.policyCardSource).errors) := by
  simp only [createGovernedAgent]
  cases hs : (loadPolicyCard config.policyCardSource).success with
  | false => rfl
  | true =>
    cases hp : (loadPolicyCard config.policyCardSource).policyCard with
    | none => rfl
    | some pc =>
      rcases h with h | h
      · rw [hs] at h; exact Bool.noConfusion h
      · rw [hp] at h; exact Option.noConfusion h

theorem createGovernedAgent_ok_tools {config : GovernedAgentConfig}
    {r : GovernedAgentResult} (h : createGovernedAgent config = .ok r) :
    r.agentTools = buildToolsMap r.compliantTools config.mcpConnection.rawTools := by
  simp only [createGovernedAgent] at h
  split at h
  · rw [Except.ok.injEq] at h
    rw [← h]
  · exact Except.noConfusion h

theorem upsert_mem {m : List (List Char × RawToolDef)} {k' k : List Char}
    {v' v : RawToolDef} (h : (k, v) ∈ upsert m k' v') :
    (k, v) ∈ m ∨ (k = k' ∧ v = v') := by
  unfold upsert at h
  split at h
  · obtain ⟨p, hp, heq⟩ := List.mem_map.mp h
    by_cases hpk : p.1 == k'
    · rw [if_pos hpk] at heq
      right
      exact ⟨(Prod.mk.injEq _ _ _ _ ▸ heq).1.symm, (Prod.mk.injEq _ _ _ _ ▸ heq).2.symm⟩
    · rw [if_neg hpk] at heq
      left
      exact heq ▸ hp
  · rcases List.mem_append.mp h with h | h
    · exact Or.inl h
    · right
      have := List.mem_singleton.mp h
      exact ⟨(Prod.mk.injEq _ _ _ _ ▸ this).1, (Prod.mk.injEq _ _ _ _ ▸ this).2⟩

theorem buildToolsMap_mem_aux (raws : List (List Char × RawToolDef))
    (l : List DiscoveredPecTool) :
    ∀ acc k v,
      (k, v) ∈ l.foldl
        (fun acc tool =>
          match findRawKey raws tool.name with
          | some rawKey =>
            match List.lookup rawKey raws with
            | some rawTool => upsert acc tool.name rawTool
            | none => acc
          | none => acc)
        acc →
      (k, v) ∈ acc ∨
        ∃ t, t ∈ l ∧ k = t.name ∧
          ∃ rk, findRawKey raws t.name = some rk ∧ List.lookup rk raws = some v := by
  induction l with
  | nil => intro acc k v h; exact Or.inl h
  | cons t rest ih =>
    intro acc k v h
    rw [List.foldl_cons] at h
    rcases ih _ k v h with hacc | ⟨t', ht', hk, rk, hfind, hlook⟩
    · cases hfr : findRawKey raws t.name with
      | none =>
        simp only [hfr] at hacc
        exact Or.inl hacc
      | some rk =>
        simp only [hfr] at hacc
        cases hlk : List.lookup rk raws with
        | none =>
          simp only [hlk] at hacc
          exact Or.inl hacc
        | some rawTool =>
          simp only [hlk] at hacc
          rcases upsert_mem hacc with hm | ⟨hk, hv⟩
          · exact Or.inl hm
          · exact Or.inr ⟨t, List.mem_cons_self t rest, hk, rk, hfr, hv ▸ hlk⟩
    · exact Or.inr ⟨t', List.mem_cons_of_mem t ht', hk, rk, hfind, hlook⟩

/-- Every binding of the agent's tools map comes from a compliant tool:
the key is its clean name and the value the raw tool found for it. -/
theorem buildToolsMap_mem {compliant : List DiscoveredPecTool}
    {raws : List (List Char × RawToolDef)} {k : List Char} {v : RawToolDef}
    (h : (k, v) ∈ buildToolsMap compliant raws) :
    ∃ t, t ∈ compliant ∧ k = t.name ∧
      ∃ rk, findRawKey raws t.name = some rk ∧ List.lookup rk raws = some v := by
  rcases buildToolsMap_mem_aux raws compliant [] k v h with hacc | hgoal
  · exact absurd hacc (List.not_mem_nil _)
  · exact hgoal

/-! ## Discovery invariants -/

theorem discover_mem {raws : List (List Char × RawToolDef)} {t : DiscoveredPecTool}
    (h : t ∈ discoverPecTools raws) :
    ∃ pr, pr ∈ raws ∧
      parsePecMetadata (pr.2.description.getD []) = some t.compliance ∧
      t.name = cleanToolName pr.1 ∧
      t.description = trimChars (stripPecSuffix (pr.2.description.getD [])) := by
  obtain ⟨pr, hpr, hf⟩ := List.mem_filterMap.mp h
  cases hp : parsePecMetadata (pr.2.description.getD []) with
  | none => simp [hp] at hf
  | some c =>
    simp only [hp] at hf
    rw [Option.some_inj] at hf
    exact ⟨pr, hpr, by rw [hp, ← hf], by rw [← hf], by rw [← hf]⟩

theorem discover_length (raws : List (List Char × RawToolDef)) :
    (discoverPecTools raws).length
      = (raws.filter
          (fun pr => (parsePecMetadata (pr.2.description.getD [])).isSome)).length := by
  induction raws with
  | nil => rfl
  | cons pr rest ih =>
    simp only [discoverPecTools] at ih
    cases hp : parsePecMetadata (pr.2.description.getD []) with
    | none => simp [discoverPecTools, List.filterMap_cons, List.filter_cons, hp, ih]
    | some c => simp [discoverPecTools, List.filterMap_cons, List.filter_cons, hp, ih]

/-! ## Concrete fixtures (the geo-restriction scenario of the spec) -/

def geoRule : Rule :=
  { id := "geo-restriction".data
    effect := .deny
    condition :=
      { field := "locations".data
        operator := .not_any_of
        operand := Json.arr [Json.str "EU".data, Json.str "EEA".data] }
    reason := "Tool processes data outside approved jurisdictions".data }

def testPolicyCard : PolicyCard :=
  { policy_card_version := "1.0".data
    name := "Test Policy".data
    scope := { ai_act_risk_level := none, geography := none, intended_uses := none }
    rules := [geoRule] }

def usMeta : Json := Json.obj [("locations".data, Json.arr [Json.str "US".data])]

def euMeta : Json := Json.obj [("locations".data, Json.arr [Json.str "EU".data])]

def usTool : DiscoveredPecTool :=
  { name := "globalpay".data, description := "US payments".data, compliance := usMeta }

def euTool : DiscoveredPecTool :=
  { name := "acme".data, description := "EU translate".data, compliance := euMeta }

example : (evaluatePolicyCard testPolicyCard usMeta "globalpay".data).compliant = false := by
  decide

example : (evaluatePolicyCard testPolicyCard euMeta "acme".data).compliant = true := by
  decide

/-- A minimal valid policy document for the loader. -/
def validPolicyDoc : Json :=
  Json.obj [("policy_card_version".data, Json.str "1.0".data),
    ("name".data, Json.str "Test Policy".data),
    ("scope".data, Json.obj []),
    ("rules".data, Json.arr [])]

example : (loadPolicyCard validPolicyDoc).success = true := by decide

example : (loadPolicyCard Json.null).errors ≠ [] := by decide

/-! ## Claim theorems -/

/-- Claim C1: for every policy card, metadata record and capability
name, the evaluation is compliant iff its violations list is empty;
consequently in `filterToolsByPolicyCard` every rejected tool carries at
least one violation reason and every compliant tool's evaluation has no
violations. -/
theorem claim_compliant_iff_violations_empty :
    (∀ policyCard metadata capabilityName,
      (evaluatePolicyCard policyCard metadata capabilityName).compliant = true ↔
        (evaluatePolicyCard policyCard metadata capabilityName).violations = []) ∧
    (∀ tools policyCard auditorOpt e,
      e ∈ (filterToolsByPolicyCard tools policyCard auditorOpt).1.rejected →
        e.violations ≠ []) ∧
    (∀ tools policyCard t,
      t ∈ (filterToolsByPolicyCard tools policyCard none).1.compliant →
        (evaluatePolicyCard policyCard t.compliance t.name).violations = []) := by
  have hrej : ∀ tools policyCard e,
      e ∈ (filterToolsByPolicyCard tools policyCard none).1.rejected →
        e.violations ≠ [] := by
    intro tools pc e he
    rw [filter_none_spec] at he
    obtain ⟨t, ht, heq⟩ := List.mem_map.mp he
    have hnc : (evaluatePolicyCard pc t.compliance t.name).compliant = false := by
      have hpred := (List.mem_filter.mp ht).2
      simpa using hpred
    have hv : (evaluatePolicyCard pc t.compliance t.name).violations ≠ [] := by
      intro hnil
      have := (eval_compliant_iff pc t.compliance t.name).mpr hnil
      rw [hnc] at this
      exact Bool.noConfusion this
    rw [← heq]
    simpa using hv
  refine ⟨eval_compliant_iff, ?_, ?_⟩
  · intro tools pc auditorOpt e he
    cases auditorOpt with
    | none => exact hrej tools pc e he
    | some a =>
      rw [(filter_some_spec tools pc a).1] at he
      exact hrej tools a.policyCard e he
  · intro tools pc t ht
    rw [filter_none_spec] at ht
    exact (eval_compliant_iff pc t.compliance t.name).mp (List.mem_filter.mp ht).2

/-- Witness for C1 at the geo-restriction fixture: the US tool is
rejected with a nonempty reason list and the EU tool's evaluation has no
violations. -/
theorem claim_compliant_iff_violations_empty_witness :
    ((evaluatePolicyCard testPolicyCard usMeta "globalpay".data).compliant = true ↔
      (evaluatePolicyCard testPolicyCard usMeta "globalpay".data).violations = []) ∧
    ({ tool := usTool
       violations := ["Tool processes data outside approved jurisdictions".data] }
        : RejectedTool).violations ≠ [] ∧
    (evaluatePolicyCard testPolicyCard euMeta euTool.name).violations = [] := by
  have hre : (filterToolsByPolicyCard [usTool, euTool] testPolicyCard none).1.rejected
      = [{ tool := usTool
           violations := ["Tool processes data outside approved jurisdictions".data] }] := by
    rfl
  have hco : (filterToolsByPolicyCard [usTool, euTool] testPolicyCard none).1.compliant
      = [euTool] := by
    rfl
  refine ⟨claim_compliant_iff_violations_empty.1 testPolicyCard usMeta "globalpay".data,
    claim_compliant_iff_violations_empty.2.1 [usTool, euTool] testPolicyCard none
      { tool := usTool
        violations := ["Tool processes data outside approved jurisdictions".data] }
      (hre ▸ List.mem_singleton.mpr rfl),
    claim_compliant_iff_violations_empty.2.2 [usTool, euTool] testPolicyCard euTool
      (hco ▸ List.mem_singleton.mpr rfl)⟩

set_option maxRecDepth 100000

/-- Claim C2 counterexample: the round trip fails when the base
description itself contains `[PEC_COMPLIANCE:\x7b` — the regex matches at
that earlier position, the capture is not valid JSON, and
`parsePecMetadata` returns null instead of the projected record. -/
theorem claim_pec_roundtrip_counterexample :
    parsePecMetadata
        (buildPecDescription "[PEC_COMPLIANCE:\x7b".data complianceEuBanking) = none := by
  rfl

/-- Claim C2 (amended): for every base description `d` that does not
contain the substring `[PEC_COMPLIANCE:\x7b` and every compliance record
`c`, `parsePecMetadata (buildPecDescription d c)` returns a non-null
record equal to the projection of `c` onto the ten PEC fields. -/
theorem claim_pec_roundtrip_amended (d : List Char) (c : PecComplianceMetadata)
    (h : hasSeg patL d = false) :
    parsePecMetadata (buildPecDescription d c) = some (pecToJson c) :=
  parsePec_build c h

/-- Witness for the amended C2 at a concrete description and record. -/
theorem claim_pec_roundtrip_amended_witness :
    parsePecMetadata (buildPecDescription "A tool.".data complianceEuMinimal)
      = some (pecToJson complianceEuMinimal) :=
  claim_pec_roundtrip_amended "A tool.".data complianceEuMinimal (by decide)

/-- Claim C3: filtering through an auditor constructed over the same
policy card yields the same compliant/rejected partition as filtering
without one, and the auditor's `evaluateAndRecord` returns exactly the
rule engine's evaluation. -/
theorem claim_auditor_preserves_partition :
    ∀ tools policyCard (a : PolicyCardAuditor), a.policyCard = policyCard →
      (filterToolsByPolicyCard tools policyCard (some a)).1
          = (filterToolsByPolicyCard tools policyCard none).1 ∧
      (∀ capabilityName metadata,
        ((evaluateAndRecord a capabilityName metadata).1).evaluation
          = evaluatePolicyCard policyCard metadata capabilityName) := by
  intro tools policyCard a ha
  subst ha
  exact ⟨(filter_some_spec tools a.policyCard a).1, fun _ _ => rfl⟩

/-- Witness for C3: with a fresh auditor over the test policy the two
partitions coincide on a concrete tool list. -/
theorem claim_auditor_preserves_partition_witness :
    (filterToolsByPolicyCard [usTool, euTool] testPolicyCard
        (some (newAuditor testPolicyCard))).1
      = (filterToolsByPolicyCard [usTool, euTool] testPolicyCard none).1 :=
  (claim_auditor_preserves_partition [usTool, euTool] testPolicyCard
    (newAuditor testPolicyCard) rfl).1

/-- Claim C6: `parsePecMetadata` is total over untrusted input — it
returns a record or null (never throws, the `try/catch` being modelled
by the `Option`); with no regex match it returns null, and on concrete
inputs with a missing marker or a non-JSON blob it returns null. -/
theorem claim_parse_metadata_total :
    (∀ description, parsePecMetadata description = none ∨
      ∃ m, parsePecMetadata description = some m) ∧
    (∀ description, pecSplit description = none → parsePecMetadata description = none) ∧
    parsePecMetadata "a plain description with no marker".data = none ∧
    parsePecMetadata "[PEC_COMPLIANCE:\x7bnot json\x7d]".data = none := by
  refine ⟨?_, ?_, by rfl, by rfl⟩
  · intro d
    cases h : parsePecMetadata d with
    | none => exact Or.inl rfl
    | some m => exact Or.inr ⟨m, rfl⟩
  · intro d h
    unfold parsePecMetadata
    rw [h]

/-- Witness for C6's conditional part at a markerless input. -/
theorem claim_parse_metadata_total_witness :
    parsePecMetadata "x".data = none :=
  claim_parse_metadata_total.2.1 "x".data (by rfl)

/-- Claim C7: `filterToolsByPolicyCard` without an auditor is a pure
function of its inputs — both output lists are order-preserving filters
of the input list (hence two runs on identical inputs agree, and tools
keep their relative input order). -/
theorem claim_filter_deterministic_ordered :
    ∀ tools policyCard,
      (filterToolsByPolicyCard tools policyCard none).1.compliant
          = tools.filter
            (fun t => (evaluatePolicyCard policyCard t.compliance t.name).compliant) ∧
      (filterToolsByPolicyCard tools policyCard none).1.rejected.map (fun e => e.tool)
          = tools.filter
            (fun t => !(evaluatePolicyCard policyCard t.compliance t.name).compliant) ∧
      List.Sublist ((filterToolsByPolicyCard tools policyCard none).1.compliant) tools ∧
      List.Sublist
        ((filterToolsByPolicyCard tools policyCard none).1.rejected.map (fun e => e.tool))
        tools := by
  intro tools policyCard
  have h := filter_none_spec tools policyCard
  have h1 : (filterToolsByPolicyCard tools policyCard none).1.compliant
      = tools.filter
        (fun t => (evaluatePolicyCard policyCard t.compliance t.name).compliant) := by
    rw [h]
  have h2 : (filterToolsByPolicyCard tools policyCard none).1.rejected.map (fun e => e.tool)
      = tools.filter
        (fun t => !(evaluatePolicyCard policyCard t.compliance t.name).compliant) := by
    rw [h]
    simp [List.map_map, Function.comp_def]
  exact ⟨h1, h2, h1 ▸ List.filter_sublist tools, h2 ▸ List.filter_sublist tools⟩

/-- Claim C4: when loading the policy card fails (no success or no
document), `createGovernedAgent` throws an error carrying the loader's
complete error list and constructs nothing — and the loader never hands
out a partial document (`policyCard = none`, errors nonempty). -/
theorem claim_load_failure_aborts :
    ∀ config : GovernedAgentConfig,
      ((loadPolicyCard config.policyCardSource).success = false ∨
        (loadPolicyCard config.policyCardSource).policyCard = none) →
      createGovernedAgent config
          = .error (failToLoadMessage (loadPolicyCard config.policyCardSource).errors) ∧
      (loadPolicyCard config.policyCardSource).policyCard = none ∧
      (loadPolicyCard config.policyCardSource).errors ≠ [] := by
  intro config h
  rcases loadPolicyCard_shape config.policyCardSource with ⟨hs, _, hp⟩ | ⟨_, hp, he⟩
  · exfalso
    rcases h with h | h
    · rw [hs] at h; exact Bool.noConfusion h
    · rw [h] at hp; exact Bool.noConfusion hp
  · exact ⟨createGovernedAgent_fail config h, hp, he⟩

/-- Witness for C4 at a document missing every required key. -/
theorem claim_load_failure_aborts_witness :
    createGovernedAgent
        { policyCardSource := Json.null, mcpConnection := connectToMcpServer [] }
      = .error (failToLoadMessage (loadPolicyCard Json.null).errors) ∧
    (loadPolicyCard Json.null).policyCard = none ∧
    (loadPolicyCard Json.null).errors ≠ [] :=
  claim_load_failure_aborts
    { policyCardSource := Json.null, mcpConnection := connectToMcpServer [] }
    (Or.inl (by decide))

/-- Claim C5: after `filterToolsByPolicyCard` runs with the (freshly
constructed) auditor over `n` tools, the report's summary has total
`n`, compliant the length of the compliant list, and rejected equal to
total minus compliant. -/
theorem claim_report_summary_counts :
    ∀ tools policyCard a',
      (filterToolsByPolicyCard tools policyCard (some (newAuditor policyCard))).2
          = some a' →
      (generateReport a').summary.total_invocations = tools.length ∧
      (generateReport a').summary.compliant
        = (filterToolsByPolicyCard tools policyCard
            (some (newAuditor policyCard))).1.compliant.length ∧
      (generateReport a').summary.rejected
        = (generateReport a').summary.total_invocations
            - (generateReport a').summary.compliant := by
  intro tools policyCard a' h
  have hs := filter_some_spec tools policyCard (newAuditor policyCard)
  rw [hs.2, Option.some_inj] at h
  have hcard : (newAuditor policyCard).policyCard = policyCard := rfl
  have hlog : a'.log = evidencesFor policyCard 0 tools := by
    rw [← h]
    simp [newAuditor]
  have htot : (generateReport a').summary.total_invocations = tools.length := by
    simp [generateReport, hlog, evidencesFor_length]
  refine ⟨htot, ?_, by simp [generateReport]⟩
  have hcomp : (filterToolsByPolicyCard tools policyCard
      (some (newAuditor policyCard))).1.compliant
      = tools.filter
        (fun t => (evaluatePolicyCard policyCard t.compliance t.name).compliant) := by
    rw [hs.1, hcard, filter_none_spec]
  rw [hcomp]
  simp [generateReport, hlog, evidencesFor_compliant_count]

/-- Witness for C5 at the geo-restriction fixture: two tools, one
compliant, one rejected. -/
theorem claim_report_summary_counts_witness :
    (generateReport
        { policyCard := testPolicyCard
          log := evidencesFor testPolicyCard 0 [usTool, euTool] }).summary.total_invocations
        = 2 ∧
      (generateReport
        { policyCard := testPolicyCard
          log := evidencesFor testPolicyCard 0 [usTool, euTool] }).summary.compliant
        = (filterToolsByPolicyCard [usTool, euTool] testPolicyCard
            (some (newAuditor testPolicyCard))).1.compliant.length ∧
      (generateReport
        { policyCard := testPolicyCard
          log := evidencesFor testPolicyCard 0 [usTool, euTool] }).summary.rejected
        = (generateReport
            { policyCard := testPolicyCard
              log := evidencesFor testPolicyCard 0 [usTool, euTool] }).summary.total_invocations
          - (generateReport
              { policyCard := testPolicyCard
                log := evidencesFor testPolicyCard 0 [usTool, euTool] }).summary.compliant := by
  have h := claim_report_summary_counts [usTool, euTool] testPolicyCard
    { policyCard := testPolicyCard
      log := evidencesFor testPolicyCard 0 [usTool, euTool] }
    (by rfl)
  exact h

/-- Claim C8: every binding of the agent's tools map is a compliant
tool's clean name mapped to the raw tool found for it; a name carried by
no compliant tool is never a key. -/
theorem claim_agent_tools_only_compliant :
    ∀ (config : GovernedAgentConfig) (r : GovernedAgentResult),
      createGovernedAgent config = .ok r →
      (∀ k v, (k, v) ∈ r.agentTools →
        ∃ t, t ∈ r.compliantTools ∧ k = t.name ∧
          ∃ rk, findRawKey config.mcpConnection.rawTools t.name = some rk ∧
            List.lookup rk config.mcpConnection.rawTools = some v) ∧
      (∀ k, (∀ t, t ∈ r.compliantTools → t.name ≠ k) →
        ∀ v, (k, v) ∉ r.agentTools) := by
  intro config r h
  have htools := createGovernedAgent_ok_tools h
  constructor
  · intro k v hkv
    rw [htools] at hkv
    exact buildToolsMap_mem hkv
  · intro k hk v hkv
    rw [htools] at hkv
    obtain ⟨t, ht, hkt, _⟩ := buildToolsMap_mem hkv
    exact hk t ht hkt.symm

/-! Fixtures for the C8/C9 witnesses: one raw tool whose description
carries a valid blob. -/

def rawAlpha : RawToolDef :=
  { description := some (buildPecDescription "A tool.".data complianceEuMinimal) }

def raws0 : List (List Char × RawToolDef) := [("pecServer_alpha".data, rawAlpha)]

def cfg0 : GovernedAgentConfig :=
  { policyCardSource := validPolicyDoc, mcpConnection := connectToMcpServer raws0 }

def pc0 : PolicyCard :=
  { policy_card_version := "1.0".data
    name := "Test Policy".data
    scope := { ai_act_risk_level := none, geography := none, intended_uses := none }
    rules := [] }

def t0 : DiscoveredPecTool :=
  { name := "alpha".data
    description := "A tool.".data
    compliance := pecToJson complianceEuMinimal }

def r0 : GovernedAgentResult :=
  { agentTools := [("alpha".data, rawAlpha)]
    policyCard := pc0
    auditor :=
      { policyCard := pc0
        log := [{ capability_name := "alpha".data
                  evaluation := { compliant := true, violations := [], warnings := [] }
                  sequence := 0 }] }
    compliantTools := [t0]
    rejectedTools := []
    toolCount := 1 }

/-- Witness for C8: the one key of the concrete agent's map is the
compliant tool's clean name, bound to the raw tool found by suffix. -/
theorem claim_agent_tools_only_compliant_witness :
    ∃ t, t ∈ r0.compliantTools ∧ "alpha".data = t.name ∧
      ∃ rk, findRawKey cfg0.mcpConnection.rawTools t.name = some rk ∧
        List.lookup rk cfg0.mcpConnection.rawTools = some rawAlpha :=
  (claim_agent_tools_only_compliant cfg0 r0 (by rfl)).1 "alpha".data rawAlpha
    (List.mem_singleton.mpr rfl)

/-- Claim C9: `connectToMcpServer` tolerates malformed blobs — raw
tools are passed through unchanged, exactly the raw tools with a
parseable blob are discovered, and each discovered tool carries the
prefix-stripped name and the stripped-and-trimmed description. -/
theorem claim_discovery_tolerant :
    ∀ raws,
      (connectToMcpServer raws).rawTools = raws ∧
      (connectToMcpServer raws).tools.length
        = (raws.filter
            (fun pr => (parsePecMetadata (pr.2.description.getD [])).isSome)).length ∧
      (∀ t, t ∈ (connectToMcpServer raws).tools →
        ∃ pr, pr ∈ raws ∧
          parsePecMetadata (pr.2.description.getD []) = some t.compliance ∧
          t.name = cleanToolName pr.1 ∧
          t.description = trimChars (stripPecSuffix (pr.2.description.getD []))) := by
  intro raws
  exact ⟨rfl, discover_length raws, fun t ht => discover_mem ht⟩

/-- Witness for C9 at the concrete raw tool list. -/
theorem claim_discovery_tolerant_witness :
    ∃ pr, pr ∈ raws0 ∧
      parsePecMetadata (pr.2.description.getD []) = some t0.compliance ∧
      t0.name = cleanToolName pr.1 ∧
      t0.description = trimChars (stripPecSuffix (pr.2.description.getD [])) :=
  (claim_discovery_tolerant raws0).2.2 t0 (by
    rw [show (connectToMcpServer raws0).tools = [t0] from rfl]
    exact List.mem_singleton.mpr rfl)

/-- Claim C10: the ids of the four MCP tools agree positionally with
the names in `allTools`, and each tool's description embeds exactly the
compliance metadata of the identically-named `PecTool`. -/
theorem claim_mcp_descriptions_positional :
    mastraTools.map McpToolDef.id = allTools.map PecTool.name ∧
    euPaymentProcessorMcp.description
        = buildPecDescription euPaymentProcessor.description euPaymentProcessor.compliance ∧
    documentScannerMcp.description
        = buildPecDescription documentScanner.description documentScanner.compliance ∧
    clinicalAnalyserMcp.description
        = buildPecDescription clinicalAnalyser.description clinicalAnalyser.compliance ∧
    offshoreComputeMcp.description
        = buildPecDescription offshoreCompute.description offshoreCompute.compliance ∧
    parsePecMetadata euPaymentProcessorMcp.description
        = some (pecToJson euPaymentProcessor.compliance) ∧
    parsePecMetadata documentScannerMcp.description
        = some (pecToJson documentScanner.compliance) ∧
    parsePecMetadata clinicalAnalyserMcp.description
        = some (pecToJson clinicalAnalyser.compliance) ∧
    parsePecMetadata offshoreComputeMcp.description
        = some (pecToJson offshoreCompute.compliance) := by
  refine ⟨by rfl, by rfl, by rfl, by rfl, by rfl, ?_, ?_, ?_, ?_⟩ <;> rfl

end Pec
